import Mathlib

/-!
Verification of the `img` raster-image library: a shallow embedding of the
pixel/image data model (grayscale reference format `Gray<BaseTypeP>` over an
abstract scalar, `ImageBuffer`, and the arithmetic-broadcasting layer) with
proofs of the specified properties.

Modelling conventions:
* byte buffers are `List Nat`; a scalar value is identified with its native
  byte representation (a list of `ss` bytes), exactly what `transmute_copy`
  reads and `transmute`-write stores;
* `u32`/`usize` values are `Nat`; the `usize → u32` cast
  (`calc_minimum_pitch(..) as u32` in `new_with_size`) is modelled with an
  explicit `% 2 ^ 32` (an `as` cast always wraps, in every build profile);
* the row term of the byte offset, `y * pitch`, is a `u32 × u32`
  multiplication in the source (`(y * pitch) as usize + ...`). Its overflow
  behaviour depends on the build profile: a fatal panic under checked
  arithmetic, two's-complement wrapping in release. Both are modelled, by an
  `OverflowMode` parameter threaded through every offset computation;
* fatal failures (`assert!`, `expect`, `unwrap` on `None`) are modelled as
  `none` in an `Option`-valued result.
-/

namespace Img

/-- Read `len` bytes of `buffer` starting at `start` (the slice
`buffer[start..start+len]` as used by `Gray::load_from_raw_buffer`). -/
def readBytes (buffer : List Nat) (start len : Nat) : List Nat :=
  (buffer.drop start).take len

/-- Overwrite the bytes of `buffer` at `start .. start + v.length` with `v`
(the effect of the `transmute`-based store in `Gray::write_into_raw_buffer`). -/
def writeBytes (buffer : List Nat) (start : Nat) (v : List Nat) : List Nat :=
  buffer.take start ++ v ++ buffer.drop (start + v.length)

theorem length_writeBytes (buffer : List Nat) (start : Nat) (v : List Nat)
    (h : start + v.length ≤ buffer.length) :
    (writeBytes buffer start v).length = buffer.length := by
  simp only [writeBytes, List.length_append, List.length_take, List.length_drop]
  omega

theorem getElem?_writeBytes (buffer : List Nat) (start : Nat) (v : List Nat)
    (h : start + v.length ≤ buffer.length) (i : Nat) :
    (writeBytes buffer start v)[i]? =
      if i < start then buffer[i]?
      else if i < start + v.length then v[i - start]?
      else buffer[i]? := by
  have hts : (buffer.take start).length = start := by
    simp only [List.length_take]; omega
  have htv : (buffer.take start ++ v).length = start + v.length := by
    simp only [List.length_append, hts]
  by_cases h1 : i < start
  · rw [if_pos h1, writeBytes, List.getElem?_append_left (by omega),
      List.getElem?_append_left (by omega), List.getElem?_take_of_lt h1]
  · rw [if_neg h1]
    by_cases h2 : i < start + v.length
    · rw [if_pos h2, writeBytes, List.getElem?_append_left (by omega),
        List.getElem?_append_right (by omega), hts]
    · rw [if_neg h2, writeBytes, List.getElem?_append_right (by omega), htv,
        List.getElem?_drop]
      congr 1
      omega

theorem getElem?_readBytes (buffer : List Nat) (start len j : Nat) :
    (readBytes buffer start len)[j]? =
      if j < len then buffer[start + j]? else none := by
  by_cases h1 : j < len
  · rw [if_pos h1, readBytes, List.getElem?_take_of_lt h1, List.getElem?_drop]
  · rw [if_neg h1]
    refine List.getElem?_eq_none ?_
    calc (readBytes buffer start len).length ≤ len := by
          simp only [readBytes]; exact List.length_take_le _ _
      _ ≤ j := by omega

theorem readBytes_writeBytes_same (buffer : List Nat) (start : Nat) (v : List Nat)
    (h : start + v.length ≤ buffer.length) :
    readBytes (writeBytes buffer start v) start v.length = v := by
  refine List.ext_getElem? (fun j => ?_)
  rw [getElem?_readBytes]
  by_cases hj : j < v.length
  · rw [if_pos hj, getElem?_writeBytes buffer start v h,
      if_neg (by omega), if_pos (by omega)]
    congr 1
    omega
  · rw [if_neg hj, eq_comm]
    exact List.getElem?_eq_none (by omega)

theorem readBytes_writeBytes_disjoint (buffer : List Nat) (start : Nat)
    (v : List Nat) (h : start + v.length ≤ buffer.length) (start2 len2 : Nat)
    (hd : start2 + len2 ≤ start ∨ start + v.length ≤ start2) :
    readBytes (writeBytes buffer start v) start2 len2 =
      readBytes buffer start2 len2 := by
  refine List.ext_getElem? (fun j => ?_)
  rw [getElem?_readBytes, getElem?_readBytes]
  by_cases hj : j < len2
  · rw [if_pos hj, if_pos hj, getElem?_writeBytes buffer start v h]
    rcases hd with hd | hd
    · rw [if_pos (by omega)]
    · rw [if_neg (by omega), if_neg (by omega)]
  · rw [if_neg hj, if_neg hj]

/-- Overflow behaviour of the `u32` arithmetic in the source, fixed by the
build profile: `checked` panics on overflow (debug / overflow-checks
builds), `wrapping` wraps modulo `2 ^ 32` (release builds). -/
inductive OverflowMode where
  | checked
  | wrapping
deriving DecidableEq

/-- A `u32 × u32` multiplication such as the source's `y * pitch`
(impl_gray.rs lines 33 and 40): fatal on overflow under checked arithmetic,
`% 2 ^ 32` under wrapping arithmetic. -/
def mulU32 (M : OverflowMode) (a b : Nat) : Option Nat :=
  match M with
  | OverflowMode.checked => if a * b < 2 ^ 32 then some (a * b) else none
  | OverflowMode.wrapping => some (a * b % 2 ^ 32)

theorem mulU32_of_lt (M : OverflowMode) {a b : Nat} (h : a * b < 2 ^ 32) :
    mulU32 M a b = some (a * b) := by
  cases M
  · rw [mulU32, if_pos h]
  · rw [mulU32, Nat.mod_eq_of_lt h]

theorem mulU32_eq_mod (M : OverflowMode) {a b r : Nat}
    (h : mulU32 M a b = some r) : r = a * b % 2 ^ 32 := by
  cases M
  · rw [mulU32] at h
    by_cases hlt : a * b < 2 ^ 32
    · rw [if_pos hlt] at h
      rw [← Option.some.inj h, Nat.mod_eq_of_lt hlt]
    · rw [if_neg hlt] at h
      exact Option.noConfusion h
  · rw [mulU32] at h
    exact (Option.some.inj h).symm

/-- An abstract scalar base type (`BaseTypeP: Scalar` in the source): a fixed
byte width `ss = size_of::<BaseTypeP>()` together with the four arithmetic
operators acting on native byte representations. The operators are total
functions returning a representation of the same width, exactly as the Rust
trait `Scalar` types them; their numeric behaviour is left abstract
(inherited from the underlying numeric domain, per the non-goals). -/
structure ScalarFmt where
  ss : Nat
  ss_pos : 0 < ss
  addF : List Nat → List Nat → List Nat
  subF : List Nat → List Nat → List Nat
  mulF : List Nat → List Nat → List Nat
  divF : List Nat → List Nat → List Nat
  addF_len : ∀ a b, (addF a b).length = ss
  subF_len : ∀ a b, (subF a b).length = ss
  mulF_len : ∀ a b, (mulF a b).length = ss
  divF_len : ∀ a b, (divF a b).length = ss

namespace Gray

/-- `Gray::calc_minimum_pitch`: `(width as usize) * size_of::<BaseTypeP>()`.
The `_height` argument is accepted and ignored, as in the source. -/
def calc_minimum_pitch (F : ScalarFmt) (width _height : Nat) : Nat :=
  width * F.ss

/-- `Gray::calc_size_in_bytes`: `Some(height * pitch)` when
`pitch >= calc_minimum_pitch(width, height)`, else `None`. -/
def calc_size_in_bytes (F : ScalarFmt) (width height pitch : Nat) : Option Nat :=
  if calc_minimum_pitch F width height ≤ pitch then some (height * pitch)
  else none

/-- `Gray::load_from_raw_buffer`:
`let start = (y * pitch) as usize + x as usize * size_of::<BaseTypeP>()`.
The row term `y * pitch` is a `u32` multiplication (overflow behaviour given
by `M`); the remaining additions and the `x * size_of` product are `usize`
and cannot overflow for `u32` operands. Reads the `ss` bytes at `start`;
the `assert!(end <= buffer.len())` is modelled as `none`. -/
def load_from_raw_buffer (M : OverflowMode) (F : ScalarFmt)
    (x y pitch : Nat) (buffer : List Nat) : Option (List Nat) :=
  (mulU32 M y pitch).bind (fun row =>
    if row + x * F.ss + F.ss ≤ buffer.length then
      some (readBytes buffer (row + x * F.ss) F.ss)
    else none)

/-- `Gray::write_into_raw_buffer`: same offset computation as the load
(`(y * pitch) as usize + x as usize * size_of`, with the `u32` row
multiplication); stores the intensity representation at the offset; the
`assert!(end <= buffer.len())` is modelled as `none`. -/
def write_into_raw_buffer (M : OverflowMode) (F : ScalarFmt) (v : List Nat)
    (x y pitch : Nat) (buffer : List Nat) : Option (List Nat) :=
  (mulU32 M y pitch).bind (fun row =>
    if row + x * F.ss + F.ss ≤ buffer.length then
      some (writeBytes buffer (row + x * F.ss) v)
    else none)

/-- `Gray::add_px_px`: intensity + intensity. -/
def add_px_px (F : ScalarFmt) (a b : List Nat) : List Nat := F.addF a b

/-- `Gray::sub_px_px`. -/
def sub_px_px (F : ScalarFmt) (a b : List Nat) : List Nat := F.subF a b

/-- `Gray::mul_px_px`. -/
def mul_px_px (F : ScalarFmt) (a b : List Nat) : List Nat := F.mulF a b

/-- `Gray::div_px_px`. -/
def div_px_px (F : ScalarFmt) (a b : List Nat) : List Nat := F.divF a b

/-- `Gray::add_px_sc`: intensity + scalar. -/
def add_px_sc (F : ScalarFmt) (p s : List Nat) : List Nat := F.addF p s

/-- `Gray::sub_px_sc`. -/
def sub_px_sc (F : ScalarFmt) (p s : List Nat) : List Nat := F.subF p s

/-- `Gray::mul_px_sc`. -/
def mul_px_sc (F : ScalarFmt) (p s : List Nat) : List Nat := F.mulF p s

/-- `Gray::div_px_sc`. -/
def div_px_sc (F : ScalarFmt) (p s : List Nat) : List Nat := F.divF p s

/-- `Gray::add_sc_px(self, lhs)`: lhs + intensity. -/
def add_sc_px (F : ScalarFmt) (p l : List Nat) : List Nat := F.addF l p

/-- `Gray::sub_sc_px(self, lhs)`: lhs - intensity. -/
def sub_sc_px (F : ScalarFmt) (p l : List Nat) : List Nat := F.subF l p

/-- `Gray::mul_sc_px(self, lhs)`. -/
def mul_sc_px (F : ScalarFmt) (p l : List Nat) : List Nat := F.mulF l p

/-- `Gray::div_sc_px(self, lhs)`: lhs / intensity. -/
def div_sc_px (F : ScalarFmt) (p l : List Nat) : List Nat := F.divF l p

end Gray

/-- One of the four derived arithmetic operators (`Add/Sub/Mul/Div`). -/
inductive Op where
  | add
  | sub
  | mul
  | div
deriving DecidableEq

/-- Dispatch an `Op` to the scalar operator it is instantiated with
(each `derive_std_op_for_*!(OpType, op)` invocation picks one of the four). -/
def scalar_op (F : ScalarFmt) : Op → (List Nat → List Nat → List Nat)
  | Op.add => F.addF
  | Op.sub => F.subF
  | Op.mul => F.mulF
  | Op.div => F.divF

/-- The pixel⊗pixel operator selected by `o` (`PixelVal ⊗ PixelVal` goes
through `{op}_px_px`). -/
def op_px_px (F : ScalarFmt) (o : Op) (a b : List Nat) : List Nat :=
  match o with
  | Op.add => Gray.add_px_px F a b
  | Op.sub => Gray.sub_px_px F a b
  | Op.mul => Gray.mul_px_px F a b
  | Op.div => Gray.div_px_px F a b

/-- The pixel⊗scalar operator selected by `o` (`PixelVal ⊗ ScalarVal` goes
through `{op}_px_sc`). -/
def op_px_sc (F : ScalarFmt) (o : Op) (p s : List Nat) : List Nat :=
  match o with
  | Op.add => Gray.add_px_sc F p s
  | Op.sub => Gray.sub_px_sc F p s
  | Op.mul => Gray.mul_px_sc F p s
  | Op.div => Gray.div_px_sc F p s

/-- The scalar⊗pixel operator selected by `o` (`ScalarVal ⊗ PixelVal` goes
through `{op}_sc_px`, whose receiver is the pixel and whose argument is the
left scalar operand). -/
def op_sc_px (F : ScalarFmt) (o : Op) (s p : List Nat) : List Nat :=
  match o with
  | Op.add => Gray.add_sc_px F p s
  | Op.sub => Gray.sub_sc_px F p s
  | Op.mul => Gray.mul_sc_px F p s
  | Op.div => Gray.div_sc_px F p s

theorem op_px_px_eq (F : ScalarFmt) (o : Op) (a b : List Nat) :
    op_px_px F o a b = scalar_op F o a b := by
  cases o <;> rfl

theorem op_px_sc_eq (F : ScalarFmt) (o : Op) (p s : List Nat) :
    op_px_sc F o p s = scalar_op F o p s := by
  cases o <;> rfl

theorem op_sc_px_eq (F : ScalarFmt) (o : Op) (s p : List Nat) :
    op_sc_px F o s p = scalar_op F o s p := by
  cases o <;> rfl

theorem scalar_op_len (F : ScalarFmt) (o : Op) (a b : List Nat) :
    (scalar_op F o a b).length = F.ss := by
  cases o
  · exact F.addF_len a b
  · exact F.subF_len a b
  · exact F.mulF_len a b
  · exact F.divF_len a b

/-- `ImageBuffer<PixelP>`: width, height and pitch (all `u32`) plus the owned
byte storage `raw_data`. -/
structure ImageBuffer where
  width : Nat
  height : Nat
  pitch : Nat
  raw_data : List Nat
deriving DecidableEq

namespace ImageBuffer

/-- `ImageBuffer::get_size_in_bytes`: recomputed on every call; the `expect`
on an invalid geometry is modelled as `none`. -/
def get_size_in_bytes (F : ScalarFmt) (img : ImageBuffer) : Option Nat :=
  Gray.calc_size_in_bytes F img.width img.height img.pitch

/-- `ImageBufferVal::new_with_size_and_pitch`: validate the geometry through
`calc_size_in_bytes` (fatal failure on `None`) and allocate a zero-filled
buffer of the validated size. -/
def new_with_size_and_pitch (F : ScalarFmt) (width height pitch : Nat) :
    Option ImageBuffer :=
  (Gray.calc_size_in_bytes F width height pitch).map
    (fun size_in_bytes => ⟨width, height, pitch, List.replicate size_in_bytes 0⟩)

/-- `ImageBufferVal::new_with_size`: pitch defaults to
`calc_minimum_pitch(width, height) as u32` — note the `usize → u32`
truncation, modelled by `% 2 ^ 32`. -/
def new_with_size (F : ScalarFmt) (width height : Nat) : Option ImageBuffer :=
  new_with_size_and_pitch F width height
    (Gray.calc_minimum_pitch F width height % 2 ^ 32)

/-- `ImageBuffer::load_from_raw_buffer`:
`assert_eq!(self.get_size_in_bytes(), buffer.len())`, then replace the
storage wholesale. -/
def load_from_raw_buffer (F : ScalarFmt) (img : ImageBuffer)
    (buffer : List Nat) : Option ImageBuffer :=
  (img.get_size_in_bytes F).bind (fun n =>
    if n = buffer.length then some { img with raw_data := buffer } else none)

/-- `ImageBuffer::write_into_raw_buffer`:
`assert_eq!(self.get_size_in_bytes(), buffer.len())`, then
`buffer.clone_from_slice(&self.raw_data)` — the caller's buffer becomes a
copy of the storage. -/
def write_into_raw_buffer (F : ScalarFmt) (img : ImageBuffer)
    (buffer : List Nat) : Option (List Nat) :=
  (img.get_size_in_bytes F).bind (fun n =>
    if n = buffer.length then some img.raw_data else none)

/-- `ImageBuffer::get_pixel`. The source's bounds test is
`x < self.width || y < self.height` (a logical OR). The outer `Option` is the
fatal-failure layer (a panic inside `Pixel::load_from_raw_buffer`); the inner
`Option` is the function's own `Option<PixelP>` result. -/
def get_pixel (M : OverflowMode) (F : ScalarFmt) (img : ImageBuffer)
    (x y : Nat) : Option (Option (List Nat)) :=
  if x < img.width ∨ y < img.height then
    (Gray.load_from_raw_buffer M F x y img.pitch img.raw_data).map some
  else some none

/-- `ImageBuffer::set_pixel`: `assert!(x < self.width || y < self.height)`
(again the OR), then write through `Pixel::write_into_raw_buffer`; the
assert, an overflow panic in the offset computation and an out-of-range
write are all fatal (`none`). -/
def set_pixel (M : OverflowMode) (F : ScalarFmt) (img : ImageBuffer)
    (x y : Nat) (v : List Nat) : Option ImageBuffer :=
  if x < img.width ∨ y < img.height then
    (Gray.write_into_raw_buffer M F v x y img.pitch img.raw_data).map
      (fun d => { img with raw_data := d })
  else none

end ImageBuffer

/-- The byte slice of the sample stored at location `(x, y)` of the image. -/
def pixelAt (F : ScalarFmt) (img : ImageBuffer) (x y : Nat) : List Nat :=
  readBytes img.raw_data (y * img.pitch + x * F.ss) F.ss

/-- Well-formedness of an `ImageBuffer`: the pitch is at least the minimum
pitch, the pitch fits in `u32` (automatic from its Rust type), and the
storage length is exactly `height * pitch` — the spec's structural
invariant `len(storage) == size_in_bytes(width, height, pitch)`. -/
@[reducible]
def WF (F : ScalarFmt) (img : ImageBuffer) : Prop :=
  Gray.calc_minimum_pitch F img.width img.height ≤ img.pitch ∧
  img.pitch < 2 ^ 32 ∧
  img.raw_data.length = img.height * img.pitch

theorem off_add_ss_le (F : ScalarFmt) (img : ImageBuffer) (hWF : WF F img)
    {x y : Nat} (hx : x < img.width) (hy : y < img.height) :
    y * img.pitch + x * F.ss + F.ss ≤ img.raw_data.length := by
  obtain ⟨hmin, _, hlen⟩ := hWF
  have h1 : x * F.ss + F.ss ≤ img.width * F.ss := by
    have : (x + 1) * F.ss ≤ img.width * F.ss :=
      Nat.mul_le_mul_right _ (by omega)
    calc x * F.ss + F.ss = (x + 1) * F.ss := by ring
      _ ≤ img.width * F.ss := this
  have h2 : img.width * F.ss ≤ img.pitch := hmin
  calc y * img.pitch + x * F.ss + F.ss
      ≤ y * img.pitch + img.pitch := by omega
    _ = (y + 1) * img.pitch := by ring
    _ ≤ img.height * img.pitch := Nat.mul_le_mul_right _ (by omega)
    _ = img.raw_data.length := hlen.symm

/-- On an image whose whole storage is smaller than `2 ^ 32` bytes, no
in-range row offset `y * pitch` can overflow `u32`. -/
theorem row_lt_of_small {h pitch y : Nat} (hy : y < h)
    (hsm : h * pitch < 2 ^ 32) : y * pitch < 2 ^ 32 := by
  calc y * pitch ≤ (y + 1) * pitch := Nat.mul_le_mul_right _ (Nat.le_succ y)
    _ ≤ h * pitch := Nat.mul_le_mul_right _ (by omega)
    _ < 2 ^ 32 := hsm

theorem get_pixel_in_range (M : OverflowMode) (F : ScalarFmt)
    (img : ImageBuffer) (hWF : WF F img)
    (hsm : img.height * img.pitch < 2 ^ 32)
    {x y : Nat} (hx : x < img.width) (hy : y < img.height) :
    img.get_pixel M F x y = some (some (pixelAt F img x y)) := by
  rw [ImageBuffer.get_pixel, if_pos (Or.inl hx), Gray.load_from_raw_buffer,
    mulU32_of_lt M (row_lt_of_small hy hsm)]
  simp only [Option.some_bind]
  rw [if_pos (off_add_ss_le F img hWF hx hy)]
  rfl

theorem set_pixel_in_range (M : OverflowMode) (F : ScalarFmt)
    (img : ImageBuffer) (hWF : WF F img)
    (hsm : img.height * img.pitch < 2 ^ 32)
    {x y : Nat} (hx : x < img.width) (hy : y < img.height) (v : List Nat) :
    img.set_pixel M F x y v =
      some { img with
        raw_data := writeBytes img.raw_data (y * img.pitch + x * F.ss) v } := by
  rw [ImageBuffer.set_pixel, if_pos (Or.inl hx), Gray.write_into_raw_buffer,
    mulU32_of_lt M (row_lt_of_small hy hsm)]
  simp only [Option.some_bind]
  rw [if_pos (off_add_ss_le F img hWF hx hy)]
  rfl

/-- Two distinct in-row-range locations occupy disjoint byte ranges, as long
as the pitch can hold a full row. -/
theorem off_disjoint (F : ScalarFmt) {w pitch : Nat} (hmin : w * F.ss ≤ pitch)
    {x1 y1 x2 y2 : Nat} (hx1 : x1 < w) (hx2 : x2 < w)
    (hne : ¬(x1 = x2 ∧ y1 = y2)) :
    y1 * pitch + x1 * F.ss + F.ss ≤ y2 * pitch + x2 * F.ss ∨
    y2 * pitch + x2 * F.ss + F.ss ≤ y1 * pitch + x1 * F.ss := by
  have row : ∀ {a b : Nat}, a < b →
      ∀ xa xb : Nat, xa < w →
      a * pitch + xa * F.ss + F.ss ≤ b * pitch + xb * F.ss := by
    intro a b hab xa xb hxa
    have h1 : xa * F.ss + F.ss ≤ w * F.ss := by
      calc xa * F.ss + F.ss = (xa + 1) * F.ss := by ring
        _ ≤ w * F.ss := Nat.mul_le_mul_right _ (by omega)
    have h2 : (a + 1) * pitch ≤ b * pitch := Nat.mul_le_mul_right _ (by omega)
    calc a * pitch + xa * F.ss + F.ss ≤ a * pitch + pitch := by omega
      _ = (a + 1) * pitch := by ring
      _ ≤ b * pitch := h2
      _ ≤ b * pitch + xb * F.ss := by omega
  rcases Nat.lt_trichotomy y1 y2 with hy | hy | hy
  · exact Or.inl (row hy x1 x2 hx1)
  · subst hy
    have hxne : x1 ≠ x2 := fun hx => hne ⟨hx, rfl⟩
    rcases Nat.lt_or_ge x1 x2 with hlt | hge
    · left
      have : (x1 + 1) * F.ss ≤ x2 * F.ss := Nat.mul_le_mul_right _ (by omega)
      calc y1 * pitch + x1 * F.ss + F.ss = y1 * pitch + (x1 + 1) * F.ss := by
            ring
        _ ≤ y1 * pitch + x2 * F.ss := by omega
    · right
      have hlt2 : x2 < x1 := by omega
      have : (x2 + 1) * F.ss ≤ x1 * F.ss := Nat.mul_le_mul_right _ (by omega)
      calc y1 * pitch + x2 * F.ss + F.ss = y1 * pitch + (x2 + 1) * F.ss := by
            ring
        _ ≤ y1 * pitch + x1 * F.ss := by omega
  · exact Or.inr (row hy x2 x1 hx2)

/-- Row-major linear indices determine the coordinates. -/
theorem rowmajor_inj {w x1 y1 x2 y2 : Nat} (hx1 : x1 < w) (hx2 : x2 < w)
    (h : y1 * w + x1 = y2 * w + x2) : x1 = x2 ∧ y1 = y2 := by
  rcases Nat.lt_trichotomy y1 y2 with hy | hy | hy
  · exact absurd h (by
      have : (y1 + 1) * w ≤ y2 * w := Nat.mul_le_mul_right _ (by omega)
      have : y1 * w + w ≤ y2 * w := by
        calc y1 * w + w = (y1 + 1) * w := by ring
          _ ≤ y2 * w := this
      omega)
  · subst hy; omega
  · exact absurd h (by
      have : (y2 + 1) * w ≤ y1 * w := Nat.mul_le_mul_right _ (by omega)
      have : y2 * w + w ≤ y1 * w := by
        calc y2 * w + w = (y2 + 1) * w := by ring
          _ ≤ y1 * w := this
      omega)

/-- `for i in 0..n { state = f(state, i) }` in a fallible setting: runs `f`
at `0, 1, …, n-1` in order, propagating fatal failures. -/
def foldRange (n : Nat) (f : α → Nat → Option α) (a : α) : Option α :=
  match n with
  | 0 => some a
  | Nat.succ m => (foldRange m f a).bind (fun s => f s m)

/-- `Option::unwrap` applied to the result of a fallible computation that
itself yields an `Option`: both a fatal failure and an unwrap of `None`
are fatal. -/
def unwrapPx (p : Option (Option (List Nat))) : Option (List Nat) :=
  p.bind id

namespace ImageBuffer

/-- The allocating `&img ⊗ &img` operator (`derive_std_op_for_img_img!`):
assert equal width and height, allocate `new_with_size(self.width,
self.height)`, then set every location to
`self.get_pixel(x,y).unwrap() ⊗ rhs.get_pixel(x,y).unwrap()`. -/
def img_op_img (M : OverflowMode) (F : ScalarFmt) (o : Op) (a b : ImageBuffer) :
    Option ImageBuffer :=
  if a.width = b.width ∧ a.height = b.height then
    (new_with_size F a.width a.height).bind (fun result =>
      foldRange a.height (fun r y =>
        foldRange a.width (fun r x =>
          (unwrapPx (a.get_pixel M F x y)).bind (fun pa =>
            (unwrapPx (b.get_pixel M F x y)).bind (fun pb =>
              r.set_pixel M F x y (op_px_px F o pa pb)))) r) result)
  else none

/-- The allocating `&img ⊗ px` operator: the pixel is broadcast through the
pixel⊗pixel operator. -/
def img_op_px (M : OverflowMode) (F : ScalarFmt) (o : Op) (a : ImageBuffer) (p : List Nat) :
    Option ImageBuffer :=
  (new_with_size F a.width a.height).bind (fun result =>
    foldRange a.height (fun r y =>
      foldRange a.width (fun r x =>
        (unwrapPx (a.get_pixel M F x y)).bind (fun pa =>
          r.set_pixel M F x y (op_px_px F o pa p))) r) result)

/-- The allocating `px ⊗ &img` operator: the pixel value is the left operand
of the pixel⊗pixel operator; geometry comes from the image operand. -/
def px_op_img (M : OverflowMode) (F : ScalarFmt) (o : Op) (p : List Nat) (b : ImageBuffer) :
    Option ImageBuffer :=
  (new_with_size F b.width b.height).bind (fun result =>
    foldRange b.height (fun r y =>
      foldRange b.width (fun r x =>
        (unwrapPx (b.get_pixel M F x y)).bind (fun pb =>
          r.set_pixel M F x y (op_px_px F o p pb))) r) result)

/-- The allocating `&img ⊗ sc` operator: broadcast through the pixel⊗scalar
operator. -/
def img_op_sc (M : OverflowMode) (F : ScalarFmt) (o : Op) (a : ImageBuffer) (s : List Nat) :
    Option ImageBuffer :=
  (new_with_size F a.width a.height).bind (fun result =>
    foldRange a.height (fun r y =>
      foldRange a.width (fun r x =>
        (unwrapPx (a.get_pixel M F x y)).bind (fun pa =>
          r.set_pixel M F x y (op_px_sc F o pa s))) r) result)

/-- The allocating `sc ⊗ &img` operator: broadcast through the scalar⊗pixel
operator; geometry comes from the image operand. -/
def sc_op_img (M : OverflowMode) (F : ScalarFmt) (o : Op) (s : List Nat) (b : ImageBuffer) :
    Option ImageBuffer :=
  (new_with_size F b.width b.height).bind (fun result =>
    foldRange b.height (fun r y =>
      foldRange b.width (fun r x =>
        (unwrapPx (b.get_pixel M F x y)).bind (fun pb =>
          r.set_pixel M F x y (op_sc_px F o s pb))) r) result)

/-- The in-place `img ⊗= &img` operator
(`derive_std_assign_op_for_img_img_and_img_val!`): assert equal dimensions,
then for every location read the current left pixel and the right pixel,
combine, and write back into the left image's own storage. -/
def img_opassign_img (M : OverflowMode) (F : ScalarFmt) (o : Op) (a b : ImageBuffer) :
    Option ImageBuffer :=
  if a.width = b.width ∧ a.height = b.height then
    foldRange a.height (fun r y =>
      foldRange a.width (fun r x =>
        (unwrapPx (r.get_pixel M F x y)).bind (fun pixel_lhs =>
          (unwrapPx (b.get_pixel M F x y)).bind (fun pixel_rhs =>
            r.set_pixel M F x y (op_px_px F o pixel_lhs pixel_rhs)))) r) a
  else none

/-- The in-place `img ⊗= px` operator: `px ⊗= px` compound assignment is
`*self = *self ⊗ rhs`, i.e. the pixel⊗pixel operator. -/
def img_opassign_px (M : OverflowMode) (F : ScalarFmt) (o : Op) (a : ImageBuffer) (p : List Nat) :
    Option ImageBuffer :=
  foldRange a.height (fun r y =>
    foldRange a.width (fun r x =>
      (unwrapPx (r.get_pixel M F x y)).bind (fun pixel =>
        r.set_pixel M F x y (op_px_px F o pixel p))) r) a

/-- The in-place `img ⊗= sc` operator: `px ⊗= sc` compound assignment is
`*self = *self ⊗ rhs`, i.e. the pixel⊗scalar operator. -/
def img_opassign_sc (M : OverflowMode) (F : ScalarFmt) (o : Op) (a : ImageBuffer) (s : List Nat) :
    Option ImageBuffer :=
  foldRange a.height (fun r y =>
    foldRange a.width (fun r x =>
      (unwrapPx (r.get_pixel M F x y)).bind (fun pixel =>
        r.set_pixel M F x y (op_px_sc F o pixel s))) r) a

end ImageBuffer

/-- Invariant of the row-major broadcasting scan: after the first `k`
locations (in row-major order) have been written, the state `r` has the
geometry of the start state `A0`, the written locations hold the target
pixels `t`, the unwritten locations still hold `A0`'s pixels, and all
padding bytes are untouched. -/
structure Inv (F : ScalarFmt) (t : Nat → Nat → List Nat) (A0 r : ImageBuffer)
    (k : Nat) : Prop where
  hw : r.width = A0.width
  hh : r.height = A0.height
  hp : r.pitch = A0.pitch
  hl : r.raw_data.length = A0.raw_data.length
  hdone : ∀ x y, x < A0.width → y < A0.height → y * A0.width + x < k →
    readBytes r.raw_data (y * A0.pitch + x * F.ss) F.ss = t x y
  htodo : ∀ x y, x < A0.width → y < A0.height → k ≤ y * A0.width + x →
    readBytes r.raw_data (y * A0.pitch + x * F.ss) F.ss =
      readBytes A0.raw_data (y * A0.pitch + x * F.ss) F.ss
  hpad : ∀ i, (∀ x y, x < A0.width → y < A0.height →
      ¬(y * A0.pitch + x * F.ss ≤ i ∧ i < y * A0.pitch + x * F.ss + F.ss)) →
    r.raw_data[i]? = A0.raw_data[i]?

theorem Inv_init (F : ScalarFmt) (t : Nat → Nat → List Nat)
    (A0 : ImageBuffer) : Inv F t A0 A0 0 :=
  ⟨rfl, rfl, rfl, rfl, fun _ _ _ _ h => absurd h (Nat.not_lt_zero _),
    fun _ _ _ _ _ => rfl, fun _ _ => rfl⟩

theorem WF_of_Inv {F : ScalarFmt} {t : Nat → Nat → List Nat}
    {A0 r : ImageBuffer} {k : Nat} (hWF : WF F A0) (hInv : Inv F t A0 r k) :
    WF F r := by
  obtain ⟨h1, h2, h3⟩ := hWF
  refine ⟨?_, ?_, ?_⟩
  · rw [hInv.hw, hInv.hh, hInv.hp]; exact h1
  · rw [hInv.hp]; exact h2
  · rw [hInv.hl, hInv.hh, hInv.hp]; exact h3

theorem Inv_step (M : OverflowMode) {F : ScalarFmt}
    {t : Nat → Nat → List Nat}
    {A0 : ImageBuffer} (hWF : WF F A0)
    (hsm : A0.height * A0.pitch < 2 ^ 32)
    (ht : ∀ x y, (t x y).length = F.ss)
    {x y : Nat} (hx : x < A0.width) (hy : y < A0.height)
    {r : ImageBuffer} (hInv : Inv F t A0 r (y * A0.width + x)) :
    ∃ r2, r.set_pixel M F x y (t x y) = some r2 ∧
      Inv F t A0 r2 (y * A0.width + x + 1) := by
  have hWFr : WF F r := WF_of_Inv hWF hInv
  have hx' : x < r.width := by rw [hInv.hw]; exact hx
  have hy' : y < r.height := by rw [hInv.hh]; exact hy
  have hofflen : y * A0.pitch + x * F.ss + F.ss ≤ r.raw_data.length := by
    rw [hInv.hl]
    obtain ⟨h1, h2, h3⟩ := hWF
    exact off_add_ss_le F A0 ⟨h1, h2, h3⟩ hx hy
  have hvlen : (t x y).length = F.ss := ht x y
  have hsmr : r.height * r.pitch < 2 ^ 32 := by
    rw [hInv.hh, hInv.hp]; exact hsm
  refine ⟨_, set_pixel_in_range M F r hWFr hsmr hx' hy' (t x y), ?_⟩
  set off := y * A0.pitch + x * F.ss with hoff_def
  have hreq : y * r.pitch + x * F.ss = off := by rw [hInv.hp]
  have hwb : off + (t x y).length ≤ r.raw_data.length := by
    rw [hvlen]; exact hofflen
  refine ⟨hInv.hw, hInv.hh, hInv.hp, ?_, ?_, ?_, ?_⟩
  · simp only [hreq]
    rw [length_writeBytes _ _ _ hwb, hInv.hl]
  · -- locations already written (including the one just written)
    intro x2 y2 hx2 hy2 hk
    simp only [hreq]
    by_cases heq : x2 = x ∧ y2 = y
    · obtain ⟨hex, hey⟩ := heq
      subst hex; subst hey
      have := readBytes_writeBytes_same r.raw_data off (t x2 y2) hwb
      rw [hvlen] at this
      rw [this]
    · have hdisj := off_disjoint F (show A0.width * F.ss ≤ A0.pitch from hWF.1) hx2 hx heq
      rw [readBytes_writeBytes_disjoint r.raw_data off (t x y) hwb _ _
        (by rw [hvlen]; omega)]
      have hk2 : y2 * A0.width + x2 < y * A0.width + x := by
        rcases Nat.lt_or_ge (y2 * A0.width + x2) (y * A0.width + x) with h | h
        · exact h
        · exfalso
          have : y2 * A0.width + x2 = y * A0.width + x := by omega
          exact heq (rowmajor_inj hx2 hx this)
      exact hInv.hdone x2 y2 hx2 hy2 hk2
  · -- locations not yet written
    intro x2 y2 hx2 hy2 hk
    simp only [hreq]
    have heq : ¬(x2 = x ∧ y2 = y) := by
      rintro ⟨hex, hey⟩
      subst hex; subst hey
      omega
    have hdisj := off_disjoint F (show A0.width * F.ss ≤ A0.pitch from hWF.1) hx2 hx heq
    rw [readBytes_writeBytes_disjoint r.raw_data off (t x y) hwb _ _
      (by rw [hvlen]; omega)]
    exact hInv.htodo x2 y2 hx2 hy2 (by omega)
  · -- padding bytes
    intro i hi
    simp only [hreq]
    have hnotin : ¬(off ≤ i ∧ i < off + F.ss) := hi x y hx hy
    rw [getElem?_writeBytes r.raw_data off (t x y) hwb]
    rw [hvlen]
    by_cases h1 : i < off
    · rw [if_pos h1]; exact hInv.hpad i hi
    · rw [if_neg h1, if_neg (by omega)]; exact hInv.hpad i hi

theorem loop_row (M : OverflowMode) {F : ScalarFmt}
    {t : Nat → Nat → List Nat}
    {A0 : ImageBuffer} (hWF : WF F A0)
    (hsm : A0.height * A0.pitch < 2 ^ 32)
    (ht : ∀ x y, (t x y).length = F.ss)
    (stp : ImageBuffer → Nat → Nat → Option ImageBuffer)
    (hstp : ∀ r x y, x < A0.width → y < A0.height →
      Inv F t A0 r (y * A0.width + x) → stp r x y = r.set_pixel M F x y (t x y))
    {y : Nat} (hy : y < A0.height) :
    ∀ xc, xc ≤ A0.width → ∀ r, Inv F t A0 r (y * A0.width) →
      ∃ r2, foldRange xc (fun r x => stp r x y) r = some r2 ∧
        Inv F t A0 r2 (y * A0.width + xc) := by
  intro xc
  induction xc with
  | zero =>
    intro _ r hInv
    exact ⟨r, rfl, by simpa using hInv⟩
  | succ m ih =>
    intro hm r hInv
    obtain ⟨r1, hr1, hInv1⟩ := ih (by omega) r hInv
    obtain ⟨r2, hr2, hInv2⟩ :=
      Inv_step M hWF hsm ht (x := m) (by omega) hy hInv1
    refine ⟨r2, ?_, hInv2⟩
    rw [foldRange, hr1]
    simp only [Option.some_bind]
    rw [hstp r1 m y (by omega) hy hInv1]
    exact hr2

theorem loop_all (M : OverflowMode) {F : ScalarFmt}
    {t : Nat → Nat → List Nat}
    {A0 : ImageBuffer} (hWF : WF F A0)
    (hsm : A0.height * A0.pitch < 2 ^ 32)
    (ht : ∀ x y, (t x y).length = F.ss)
    (stp : ImageBuffer → Nat → Nat → Option ImageBuffer)
    (hstp : ∀ r x y, x < A0.width → y < A0.height →
      Inv F t A0 r (y * A0.width + x) → stp r x y = r.set_pixel M F x y (t x y)) :
    ∀ yc, yc ≤ A0.height →
      ∃ r2, foldRange yc
          (fun r y => foldRange A0.width (fun r x => stp r x y) r) A0 =
          some r2 ∧
        Inv F t A0 r2 (yc * A0.width) := by
  intro yc
  induction yc with
  | zero =>
    intro _
    exact ⟨A0, rfl, by simpa using Inv_init F t A0⟩
  | succ m ih =>
    intro hm
    obtain ⟨r1, hr1, hInv1⟩ := ih (by omega)
    obtain ⟨r2, hr2, hInv2⟩ :=
      loop_row M hWF hsm ht stp hstp (y := m) (by omega) A0.width (le_refl _)
        r1 hInv1
    refine ⟨r2, ?_, ?_⟩
    · rw [foldRange, hr1]
      simp only [Option.some_bind]
      exact hr2
    · have : m * A0.width + A0.width = (m + 1) * A0.width := by ring
      rw [← this]
      exact hInv2

/-- Master lemma for the eight broadcasting scans: any double loop whose step
(at states satisfying the scan invariant) sets location `(x, y)` to the
target pixel `t x y` completes without a fatal failure and produces an image
with `A0`'s geometry holding exactly the target pixels. -/
theorem fill_loop (M : OverflowMode) {F : ScalarFmt}
    {t : Nat → Nat → List Nat}
    {A0 : ImageBuffer} (hWF : WF F A0)
    (hsm : A0.height * A0.pitch < 2 ^ 32)
    (ht : ∀ x y, (t x y).length = F.ss)
    (stp : ImageBuffer → Nat → Nat → Option ImageBuffer)
    (hstp : ∀ r x y, x < A0.width → y < A0.height →
      Inv F t A0 r (y * A0.width + x) → stp r x y = r.set_pixel M F x y (t x y)) :
    ∃ R, foldRange A0.height
        (fun r y => foldRange A0.width (fun r x => stp r x y) r) A0 = some R ∧
      R.width = A0.width ∧ R.height = A0.height ∧ R.pitch = A0.pitch ∧
      WF F R ∧
      (∀ x y, x < A0.width → y < A0.height →
        R.get_pixel M F x y = some (some (t x y))) := by
  obtain ⟨R, hR, hInv⟩ := loop_all M hWF hsm ht stp hstp A0.height (le_refl _)
  have hWFR : WF F R := WF_of_Inv hWF hInv
  refine ⟨R, hR, hInv.hw, hInv.hh, hInv.hp, hWFR, ?_⟩
  intro x y hx hy
  have hidx : y * A0.width + x < A0.height * A0.width := by
    have h1 : y * A0.width + x < (y + 1) * A0.width := by
      have : (y + 1) * A0.width = y * A0.width + A0.width := by ring
      omega
    have h2 : (y + 1) * A0.width ≤ A0.height * A0.width :=
      Nat.mul_le_mul_right _ (by omega)
    omega
  have hpix := hInv.hdone x y hx hy hidx
  rw [get_pixel_in_range M F R hWFR
    (by rw [hInv.hh, hInv.hp]; exact hsm)
    (by rw [hInv.hw]; exact hx) (by rw [hInv.hh]; exact hy)]
  rw [pixelAt, hInv.hp, hpix]

theorem new_with_size_eq (F : ScalarFmt) (w h : Nat)
    (hlt : Gray.calc_minimum_pitch F w h < 2 ^ 32) :
    ImageBuffer.new_with_size F w h =
      some ⟨w, h, Gray.calc_minimum_pitch F w h,
        List.replicate (h * Gray.calc_minimum_pitch F w h) 0⟩ := by
  rw [ImageBuffer.new_with_size, ImageBuffer.new_with_size_and_pitch,
    Nat.mod_eq_of_lt hlt, Gray.calc_size_in_bytes, if_pos (le_refl _)]
  rfl

theorem op_px_px_len (F : ScalarFmt) (o : Op) (a b : List Nat) :
    (op_px_px F o a b).length = F.ss := by
  rw [op_px_px_eq]; exact scalar_op_len F o a b

theorem op_px_sc_len (F : ScalarFmt) (o : Op) (p s : List Nat) :
    (op_px_sc F o p s).length = F.ss := by
  rw [op_px_sc_eq]; exact scalar_op_len F o p s

theorem op_sc_px_len (F : ScalarFmt) (o : Op) (s p : List Nat) :
    (op_sc_px F o s p).length = F.ss := by
  rw [op_sc_px_eq]; exact scalar_op_len F o s p

theorem img_op_img_spec (M : OverflowMode) (F : ScalarFmt) (o : Op)
    (a b : ImageBuffer)
    (hWFa : WF F a) (hWFb : WF F b)
    (hsma : a.height * a.pitch < 2 ^ 32) (hsmb : b.height * b.pitch < 2 ^ 32)
    (hw : a.width = b.width) (hh : a.height = b.height) :
    ∃ R, ImageBuffer.img_op_img M F o a b = some R ∧
      R.width = a.width ∧ R.height = a.height ∧
      R.pitch = Gray.calc_minimum_pitch F a.width a.height ∧ WF F R ∧
      (∀ x y, x < a.width → y < a.height →
        R.get_pixel M F x y =
          some (some (op_px_px F o (pixelAt F a x y) (pixelAt F b x y)))) := by
  have hmin : Gray.calc_minimum_pitch F a.width a.height < 2 ^ 32 :=
    lt_of_le_of_lt hWFa.1 hWFa.2.1
  have hWFA0 : WF F (⟨a.width, a.height,
      Gray.calc_minimum_pitch F a.width a.height,
      List.replicate
        (a.height * Gray.calc_minimum_pitch F a.width a.height) 0⟩ :
      ImageBuffer) :=
    ⟨le_refl _, hmin, by simp⟩
  have hsmA0 : a.height * Gray.calc_minimum_pitch F a.width a.height <
      2 ^ 32 :=
    lt_of_le_of_lt (Nat.mul_le_mul_left _ hWFa.1) hsma
  obtain ⟨R, hR, hRw, hRh, hRp, hRWF, hRpix⟩ :=
    fill_loop M
      (t := fun x y => op_px_px F o (pixelAt F a x y) (pixelAt F b x y))
      hWFA0 hsmA0 (fun x y => op_px_px_len F o _ _)
      (fun r x y =>
        (unwrapPx (a.get_pixel M F x y)).bind (fun pa =>
          (unwrapPx (b.get_pixel M F x y)).bind (fun pb =>
            r.set_pixel M F x y (op_px_px F o pa pb))))
      (by
        intro r x y hx hy _
        dsimp only
        rw [get_pixel_in_range M F a hWFa hsma hx hy,
          get_pixel_in_range M F b hWFb hsmb (by rw [← hw]; exact hx)
            (by rw [← hh]; exact hy)]
        simp [unwrapPx])
  refine ⟨R, ?_, hRw, hRh, hRp, hRWF, hRpix⟩
  simp only [ImageBuffer.img_op_img]
  rw [if_pos (show a.width = b.width ∧ a.height = b.height from ⟨hw, hh⟩),
    new_with_size_eq F a.width a.height hmin]
  simp only [Option.some_bind]
  exact hR

theorem img_op_px_spec (M : OverflowMode) (F : ScalarFmt) (o : Op)
    (a : ImageBuffer) (p : List Nat) (hWFa : WF F a)
    (hsma : a.height * a.pitch < 2 ^ 32) :
    ∃ R, ImageBuffer.img_op_px M F o a p = some R ∧
      R.width = a.width ∧ R.height = a.height ∧
      R.pitch = Gray.calc_minimum_pitch F a.width a.height ∧ WF F R ∧
      (∀ x y, x < a.width → y < a.height →
        R.get_pixel M F x y = some (some (op_px_px F o (pixelAt F a x y) p))) := by
  have hmin : Gray.calc_minimum_pitch F a.width a.height < 2 ^ 32 :=
    lt_of_le_of_lt hWFa.1 hWFa.2.1
  have hWFA0 : WF F (⟨a.width, a.height,
      Gray.calc_minimum_pitch F a.width a.height,
      List.replicate
        (a.height * Gray.calc_minimum_pitch F a.width a.height) 0⟩ :
      ImageBuffer) :=
    ⟨le_refl _, hmin, by simp⟩
  have hsmA0 : a.height * Gray.calc_minimum_pitch F a.width a.height <
      2 ^ 32 :=
    lt_of_le_of_lt (Nat.mul_le_mul_left _ hWFa.1) hsma
  obtain ⟨R, hR, hRw, hRh, hRp, hRWF, hRpix⟩ :=
    fill_loop M (t := fun x y => op_px_px F o (pixelAt F a x y) p)
      hWFA0 hsmA0 (fun x y => op_px_px_len F o _ _)
      (fun r x y =>
        (unwrapPx (a.get_pixel M F x y)).bind (fun pa =>
          r.set_pixel M F x y (op_px_px F o pa p)))
      (by
        intro r x y hx hy _
        dsimp only
        rw [get_pixel_in_range M F a hWFa hsma hx hy]
        simp [unwrapPx])
  refine ⟨R, ?_, hRw, hRh, hRp, hRWF, hRpix⟩
  simp only [ImageBuffer.img_op_px]
  rw [new_with_size_eq F a.width a.height hmin]
  simp only [Option.some_bind]
  exact hR

theorem px_op_img_spec (M : OverflowMode) (F : ScalarFmt) (o : Op)
    (p : List Nat) (b : ImageBuffer) (hWFb : WF F b)
    (hsmb : b.height * b.pitch < 2 ^ 32) :
    ∃ R, ImageBuffer.px_op_img M F o p b = some R ∧
      R.width = b.width ∧ R.height = b.height ∧
      R.pitch = Gray.calc_minimum_pitch F b.width b.height ∧ WF F R ∧
      (∀ x y, x < b.width → y < b.height →
        R.get_pixel M F x y = some (some (op_px_px F o p (pixelAt F b x y)))) := by
  have hmin : Gray.calc_minimum_pitch F b.width b.height < 2 ^ 32 :=
    lt_of_le_of_lt hWFb.1 hWFb.2.1
  have hWFA0 : WF F (⟨b.width, b.height,
      Gray.calc_minimum_pitch F b.width b.height,
      List.replicate
        (b.height * Gray.calc_minimum_pitch F b.width b.height) 0⟩ :
      ImageBuffer) :=
    ⟨le_refl _, hmin, by simp⟩
  have hsmA0 : b.height * Gray.calc_minimum_pitch F b.width b.height <
      2 ^ 32 :=
    lt_of_le_of_lt (Nat.mul_le_mul_left _ hWFb.1) hsmb
  obtain ⟨R, hR, hRw, hRh, hRp, hRWF, hRpix⟩ :=
    fill_loop M (t := fun x y => op_px_px F o p (pixelAt F b x y))
      hWFA0 hsmA0 (fun x y => op_px_px_len F o _ _)
      (fun r x y =>
        (unwrapPx (b.get_pixel M F x y)).bind (fun pb =>
          r.set_pixel M F x y (op_px_px F o p pb)))
      (by
        intro r x y hx hy _
        dsimp only
        rw [get_pixel_in_range M F b hWFb hsmb hx hy]
        simp [unwrapPx])
  refine ⟨R, ?_, hRw, hRh, hRp, hRWF, hRpix⟩
  simp only [ImageBuffer.px_op_img]
  rw [new_with_size_eq F b.width b.height hmin]
  simp only [Option.some_bind]
  exact hR

theorem img_op_sc_spec (M : OverflowMode) (F : ScalarFmt) (o : Op)
    (a : ImageBuffer) (s : List Nat) (hWFa : WF F a)
    (hsma : a.height * a.pitch < 2 ^ 32) :
    ∃ R, ImageBuffer.img_op_sc M F o a s = some R ∧
      R.width = a.width ∧ R.height = a.height ∧
      R.pitch = Gray.calc_minimum_pitch F a.width a.height ∧ WF F R ∧
      (∀ x y, x < a.width → y < a.height →
        R.get_pixel M F x y = some (some (op_px_sc F o (pixelAt F a x y) s))) := by
  have hmin : Gray.calc_minimum_pitch F a.width a.height < 2 ^ 32 :=
    lt_of_le_of_lt hWFa.1 hWFa.2.1
  have hWFA0 : WF F (⟨a.width, a.height,
      Gray.calc_minimum_pitch F a.width a.height,
      List.replicate
        (a.height * Gray.calc_minimum_pitch F a.width a.height) 0⟩ :
      ImageBuffer) :=
    ⟨le_refl _, hmin, by simp⟩
  have hsmA0 : a.height * Gray.calc_minimum_pitch F a.width a.height <
      2 ^ 32 :=
    lt_of_le_of_lt (Nat.mul_le_mul_left _ hWFa.1) hsma
  obtain ⟨R, hR, hRw, hRh, hRp, hRWF, hRpix⟩ :=
    fill_loop M (t := fun x y => op_px_sc F o (pixelAt F a x y) s)
      hWFA0 hsmA0 (fun x y => op_px_sc_len F o _ _)
      (fun r x y =>
        (unwrapPx (a.get_pixel M F x y)).bind (fun pa =>
          r.set_pixel M F x y (op_px_sc F o pa s)))
      (by
        intro r x y hx hy _
        dsimp only
        rw [get_pixel_in_range M F a hWFa hsma hx hy]
        simp [unwrapPx])
  refine ⟨R, ?_, hRw, hRh, hRp, hRWF, hRpix⟩
  simp only [ImageBuffer.img_op_sc]
  rw [new_with_size_eq F a.width a.height hmin]
  simp only [Option.some_bind]
  exact hR

theorem sc_op_img_spec (M : OverflowMode) (F : ScalarFmt) (o : Op)
    (s : List Nat) (b : ImageBuffer) (hWFb : WF F b)
    (hsmb : b.height * b.pitch < 2 ^ 32) :
    ∃ R, ImageBuffer.sc_op_img M F o s b = some R ∧
      R.width = b.width ∧ R.height = b.height ∧
      R.pitch = Gray.calc_minimum_pitch F b.width b.height ∧ WF F R ∧
      (∀ x y, x < b.width → y < b.height →
        R.get_pixel M F x y = some (some (op_sc_px F o s (pixelAt F b x y)))) := by
  have hmin : Gray.calc_minimum_pitch F b.width b.height < 2 ^ 32 :=
    lt_of_le_of_lt hWFb.1 hWFb.2.1
  have hWFA0 : WF F (⟨b.width, b.height,
      Gray.calc_minimum_pitch F b.width b.height,
      List.replicate
        (b.height * Gray.calc_minimum_pitch F b.width b.height) 0⟩ :
      ImageBuffer) :=
    ⟨le_refl _, hmin, by simp⟩
  have hsmA0 : b.height * Gray.calc_minimum_pitch F b.width b.height <
      2 ^ 32 :=
    lt_of_le_of_lt (Nat.mul_le_mul_left _ hWFb.1) hsmb
  obtain ⟨R, hR, hRw, hRh, hRp, hRWF, hRpix⟩ :=
    fill_loop M (t := fun x y => op_sc_px F o s (pixelAt F b x y))
      hWFA0 hsmA0 (fun x y => op_sc_px_len F o _ _)
      (fun r x y =>
        (unwrapPx (b.get_pixel M F x y)).bind (fun pb =>
          r.set_pixel M F x y (op_sc_px F o s pb)))
      (by
        intro r x y hx hy _
        dsimp only
        rw [get_pixel_in_range M F b hWFb hsmb hx hy]
        simp [unwrapPx])
  refine ⟨R, ?_, hRw, hRh, hRp, hRWF, hRpix⟩
  simp only [ImageBuffer.sc_op_img]
  rw [new_with_size_eq F b.width b.height hmin]
  simp only [Option.some_bind]
  exact hR

theorem img_opassign_img_spec (M : OverflowMode) (F : ScalarFmt) (o : Op)
    (a b : ImageBuffer)
    (hWFa : WF F a) (hWFb : WF F b)
    (hsma : a.height * a.pitch < 2 ^ 32) (hsmb : b.height * b.pitch < 2 ^ 32)
    (hw : a.width = b.width) (hh : a.height = b.height) :
    ∃ R, ImageBuffer.img_opassign_img M F o a b = some R ∧
      R.width = a.width ∧ R.height = a.height ∧ R.pitch = a.pitch ∧ WF F R ∧
      (∀ x y, x < a.width → y < a.height →
        R.get_pixel M F x y =
          some (some (op_px_px F o (pixelAt F a x y) (pixelAt F b x y)))) := by
  obtain ⟨R, hR, hRw, hRh, hRp, hRWF, hRpix⟩ :=
    fill_loop M
      (t := fun x y => op_px_px F o (pixelAt F a x y) (pixelAt F b x y))
      hWFa hsma (fun x y => op_px_px_len F o _ _)
      (fun r x y =>
        (unwrapPx (r.get_pixel M F x y)).bind (fun pixel_lhs =>
          (unwrapPx (b.get_pixel M F x y)).bind (fun pixel_rhs =>
            r.set_pixel M F x y (op_px_px F o pixel_lhs pixel_rhs))))
      (by
        intro r x y hx hy hInv
        dsimp only
        have hWFr : WF F r := WF_of_Inv hWFa hInv
        have hpix : pixelAt F r x y = pixelAt F a x y := by
          rw [pixelAt, pixelAt, hInv.hp]
          exact hInv.htodo x y hx hy (le_refl _)
        rw [get_pixel_in_range M F r hWFr
            (by rw [hInv.hh, hInv.hp]; exact hsma)
            (by rw [hInv.hw]; exact hx) (by rw [hInv.hh]; exact hy),
          get_pixel_in_range M F b hWFb hsmb (by rw [← hw]; exact hx)
            (by rw [← hh]; exact hy), hpix]
        simp [unwrapPx])
  refine ⟨R, ?_, hRw, hRh, hRp, hRWF, hRpix⟩
  simp only [ImageBuffer.img_opassign_img]
  rw [if_pos (show a.width = b.width ∧ a.height = b.height from ⟨hw, hh⟩)]
  exact hR

theorem img_opassign_px_spec (M : OverflowMode) (F : ScalarFmt) (o : Op)
    (a : ImageBuffer) (p : List Nat) (hWFa : WF F a)
    (hsma : a.height * a.pitch < 2 ^ 32) :
    ∃ R, ImageBuffer.img_opassign_px M F o a p = some R ∧
      R.width = a.width ∧ R.height = a.height ∧ R.pitch = a.pitch ∧ WF F R ∧
      (∀ x y, x < a.width → y < a.height →
        R.get_pixel M F x y = some (some (op_px_px F o (pixelAt F a x y) p))) := by
  obtain ⟨R, hR, hRw, hRh, hRp, hRWF, hRpix⟩ :=
    fill_loop M
      (t := fun x y => op_px_px F o (pixelAt F a x y) p)
      hWFa hsma (fun x y => op_px_px_len F o _ _)
      (fun r x y =>
        (unwrapPx (r.get_pixel M F x y)).bind (fun pixel =>
          r.set_pixel M F x y (op_px_px F o pixel p)))
      (by
        intro r x y hx hy hInv
        dsimp only
        have hWFr : WF F r := WF_of_Inv hWFa hInv
        have hpix : pixelAt F r x y = pixelAt F a x y := by
          rw [pixelAt, pixelAt, hInv.hp]
          exact hInv.htodo x y hx hy (le_refl _)
        rw [get_pixel_in_range M F r hWFr
            (by rw [hInv.hh, hInv.hp]; exact hsma)
            (by rw [hInv.hw]; exact hx) (by rw [hInv.hh]; exact hy), hpix]
        simp [unwrapPx])
  exact ⟨R, hR, hRw, hRh, hRp, hRWF, hRpix⟩

theorem img_opassign_sc_spec (M : OverflowMode) (F : ScalarFmt) (o : Op)
    (a : ImageBuffer) (s : List Nat) (hWFa : WF F a)
    (hsma : a.height * a.pitch < 2 ^ 32) :
    ∃ R, ImageBuffer.img_opassign_sc M F o a s = some R ∧
      R.width = a.width ∧ R.height = a.height ∧ R.pitch = a.pitch ∧ WF F R ∧
      (∀ x y, x < a.width → y < a.height →
        R.get_pixel M F x y = some (some (op_px_sc F o (pixelAt F a x y) s))) := by
  obtain ⟨R, hR, hRw, hRh, hRp, hRWF, hRpix⟩ :=
    fill_loop M
      (t := fun x y => op_px_sc F o (pixelAt F a x y) s)
      hWFa hsma (fun x y => op_px_sc_len F o _ _)
      (fun r x y =>
        (unwrapPx (r.get_pixel M F x y)).bind (fun pixel =>
          r.set_pixel M F x y (op_px_sc F o pixel s)))
      (by
        intro r x y hx hy hInv
        dsimp only
        have hWFr : WF F r := WF_of_Inv hWFa hInv
        have hpix : pixelAt F r x y = pixelAt F a x y := by
          rw [pixelAt, pixelAt, hInv.hp]
          exact hInv.htodo x y hx hy (le_refl _)
        rw [get_pixel_in_range M F r hWFr
            (by rw [hInv.hh, hInv.hp]; exact hsma)
            (by rw [hInv.hw]; exact hx) (by rw [hInv.hh]; exact hy), hpix]
        simp [unwrapPx])
  exact ⟨R, hR, hRw, hRh, hRp, hRWF, hRpix⟩

/-- The `u8` scalar base type (`Gray8U`): one byte per sample, wrapping
arithmetic on the single byte. (The division operator is total here, with
`x / 0 = 0`; the numeric behaviour of the scalar domain is outside the
properties proved, which hold for every `ScalarFmt`.) -/
def u8Fmt : ScalarFmt where
  ss := 1
  ss_pos := Nat.one_pos
  addF := fun a b => [(a.headD 0 + b.headD 0) % 256]
  subF := fun a b => [(a.headD 0 + 256 - b.headD 0 % 256) % 256]
  mulF := fun a b => [a.headD 0 * b.headD 0 % 256]
  divF := fun a b => [a.headD 0 / b.headD 0]
  addF_len := fun _ _ => rfl
  subF_len := fun _ _ => rfl
  mulF_len := fun _ _ => rfl
  divF_len := fun _ _ => rfl

/-- A two-byte scalar base type (as in `Gray16U`): `size_of = 2`. The byte
semantics of the operators is irrelevant to the pitch/size properties it is
used for; bytewise wrapping operations stand in. -/
def u16Fmt : ScalarFmt where
  ss := 2
  ss_pos := by decide
  addF := fun a b => [(a.getD 0 0 + b.getD 0 0) % 256, (a.getD 1 0 + b.getD 1 0) % 256]
  subF := fun a b => [(a.getD 0 0 + 256 - b.getD 0 0 % 256) % 256, (a.getD 1 0 + 256 - b.getD 1 0 % 256) % 256]
  mulF := fun a b => [a.getD 0 0 * b.getD 0 0 % 256, a.getD 1 0 * b.getD 1 0 % 256]
  divF := fun a b => [a.getD 0 0 / b.getD 0 0, a.getD 1 0 / b.getD 1 0]
  addF_len := fun _ _ => rfl
  subF_len := fun _ _ => rfl
  mulF_len := fun _ _ => rfl
  divF_len := fun _ _ => rfl

/-- A 2×2 `Gray<u8>` image filled row-major with `[0,1,2,3]` (the spec's
squaring-scenario image). -/
def imgA : ImageBuffer := ⟨2, 2, 2, [0, 1, 2, 3]⟩

/-- A second 2×2 `Gray<u8>` image. -/
def imgB : ImageBuffer := ⟨2, 2, 2, [1, 1, 2, 2]⟩

/-- A 1×2 `Gray<u8>` image with padded pitch 4 (minimum pitch is 1). -/
def imgPad : ImageBuffer := ⟨1, 2, 4, List.replicate 8 0⟩

/-- A 1×2 `Gray<u8>` image with packed pitch 1. -/
def imgPacked : ImageBuffer := ⟨1, 2, 1, [0, 0]⟩


theorem foldRange_one (f : α → Nat → Option α) (a : α) :
    foldRange 1 f a = f a 0 := rfl

theorem foldRange_three (f : α → Nat → Option α) (a : α) :
    foldRange 3 f a =
      ((f a 0).bind (fun s => f s 1)).bind (fun s => f s 2) := rfl

theorem readBytes_replicate (N c s l : Nat) (h : s + l ≤ N) :
    readBytes (List.replicate N c) s l = List.replicate l c := by
  refine List.ext_getElem? (fun j => ?_)
  simp only [getElem?_readBytes, List.getElem?_replicate]
  by_cases hj : j < l
  · rw [if_pos hj, if_pos (by omega), if_pos hj]
  · rw [if_neg hj, if_neg hj]

/-- The storage size (in bytes) of the oversized example images: `3 * 2^31`
bytes (just over 6 GiB), so that the row offset of the third row,
`2 * 2^31 = 2^32`, overflows `u32`. -/
def bigN : Nat := 3 * 2 ^ 31

/-- A well-formed 1×3 `Gray<u8>` image with padded pitch `2^31`: its
storage exceeds `2^32` bytes, so `y * pitch` overflows `u32` at row 2. -/
def bigA : ImageBuffer := ⟨1, 3, 2 ^ 31, List.replicate bigN 0⟩

/-- A packed 1×3 `Gray<u8>` image (pitch 1). -/
def bigB : ImageBuffer := ⟨1, 3, 1, [0, 0, 0]⟩

theorem bigA_WF : WF u8Fmt bigA := by
  refine ⟨by norm_num [Gray.calc_minimum_pitch, u8Fmt, bigA],
    by norm_num [bigA], ?_⟩
  show (List.replicate bigN (0 : Nat)).length = 3 * 2 ^ 31
  rw [List.length_replicate]
  rfl

/-- Rows 0 and 1 of `bigA` decode without overflow in either mode. -/
theorem bigA_get01 (M : OverflowMode) (y : Nat) (hy : y ≤ 1) :
    ImageBuffer.get_pixel M u8Fmt bigA 0 y = some (some [0]) := by
  have hrow : y * 2 ^ 31 < 2 ^ 32 := by
    have h1 : y * 2 ^ 31 ≤ 1 * 2 ^ 31 := Nat.mul_le_mul_right _ hy
    omega
  simp only [bigA, ImageBuffer.get_pixel]
  rw [if_pos (Or.inl (by norm_num))]
  simp only [Gray.load_from_raw_buffer]
  rw [mulU32_of_lt M hrow]
  simp only [Option.some_bind, List.length_replicate]
  rw [if_pos (show y * 2 ^ 31 + 0 * u8Fmt.ss + u8Fmt.ss ≤ bigN by
    simp only [u8Fmt, bigN]; omega)]
  have hr : readBytes (List.replicate bigN (0 : Nat))
      (y * 2 ^ 31 + 0 * u8Fmt.ss) u8Fmt.ss = [0] := by
    rw [readBytes_replicate _ _ _ _ (by simp only [u8Fmt, bigN]; omega)]
    rfl
  rw [hr]
  rfl

/-- Row 2 of `bigA`: `2 * 2^31 = 2^32` overflows, so under checked
arithmetic the decode panics. -/
theorem bigA_get2_checked :
    ImageBuffer.get_pixel OverflowMode.checked u8Fmt bigA 0 2 = none := by
  simp only [bigA, ImageBuffer.get_pixel]
  rw [if_pos (Or.inl (by norm_num))]
  simp only [Gray.load_from_raw_buffer, mulU32]
  rw [if_neg (by norm_num)]
  rfl

/-- Row 2 of `bigA` under wrapping arithmetic: the row offset wraps to 0,
so the decode silently returns row 0's sample. -/
theorem bigA_get2_wrapping :
    ImageBuffer.get_pixel OverflowMode.wrapping u8Fmt bigA 0 2 =
      some (some [0]) := by
  simp only [bigA, ImageBuffer.get_pixel]
  rw [if_pos (Or.inl (by norm_num))]
  simp only [Gray.load_from_raw_buffer, mulU32]
  have hm : 2 * 2 ^ 31 % 2 ^ 32 = 0 := by norm_num
  rw [hm]
  simp only [Option.some_bind, List.length_replicate]
  rw [if_pos (show 0 + 0 * u8Fmt.ss + u8Fmt.ss ≤ bigN by
    simp only [u8Fmt, bigN]; omega)]
  have hr : readBytes (List.replicate bigN (0 : Nat))
      (0 + 0 * u8Fmt.ss) u8Fmt.ss = [0] := by
    rw [readBytes_replicate _ _ _ _ (by simp only [u8Fmt, bigN]; omega)]
    rfl
  rw [hr]
  rfl

/-- A three-iteration fallible loop whose first two steps succeed and whose
third step fails fatally fails fatally as a whole. Stated abstractly so the
kernel never has to evaluate the (possibly huge) states. -/
theorem foldRange3_none (f : α → Nat → Option α) (a b c : α)
    (h0 : f a 0 = some b) (h1 : f b 1 = some c) (h2 : f c 2 = none) :
    foldRange 3 f a = none := by
  rw [foldRange_three, h0]
  simp only [Option.some_bind]
  rw [h1]
  simp only [Option.some_bind]
  exact h2

/-- Abstract three-iteration run of a fallible loop, recording the
intermediate states. -/
theorem foldRange3_some (f : α → Nat → Option α) (a b c d : α)
    (h0 : f a 0 = some b) (h1 : f b 1 = some c) (h2 : f c 2 = some d) :
    foldRange 3 f a = some d := by
  rw [foldRange_three, h0]
  simp only [Option.some_bind]
  rw [h1]
  simp only [Option.some_bind]
  exact h2

/-- Symbolic execution of the image⊗image scan on a 1×3 operand pair whose
left reads succeed for rows 0 and 1 and fail fatally for row 2 (the row
whose `u32` offset multiplication overflows under checked arithmetic). -/
theorem img_op_img_3x1_none (M : OverflowMode) (F : ScalarFmt) (o : Op)
    (a b r0 r1 r2 : ImageBuffer) (pa0 pa1 pb0 pb1 : List Nat)
    (hwdim : a.width = b.width) (hhdim : a.height = b.height)
    (hw1 : a.width = 1) (hh3 : a.height = 3)
    (hnew : ImageBuffer.new_with_size F a.width a.height = some r0)
    (hga0 : ImageBuffer.get_pixel M F a 0 0 = some (some pa0))
    (hgb0 : ImageBuffer.get_pixel M F b 0 0 = some (some pb0))
    (hset0 : ImageBuffer.set_pixel M F r0 0 0 (op_px_px F o pa0 pb0) =
      some r1)
    (hga1 : ImageBuffer.get_pixel M F a 0 1 = some (some pa1))
    (hgb1 : ImageBuffer.get_pixel M F b 0 1 = some (some pb1))
    (hset1 : ImageBuffer.set_pixel M F r1 0 1 (op_px_px F o pa1 pb1) =
      some r2)
    (hga2 : ImageBuffer.get_pixel M F a 0 2 = none) :
    ImageBuffer.img_op_img M F o a b = none := by
  unfold ImageBuffer.img_op_img
  rw [if_pos ⟨hwdim, hhdim⟩, hnew, Option.some_bind]
  simp only [hw1, hh3]
  refine foldRange3_none _ _ r1 r2 ?_ ?_ ?_ <;> simp only [foldRange_one]
  · rw [hga0, hgb0]
    simp only [unwrapPx, Option.some_bind, id_eq]
    exact hset0
  · rw [hga1, hgb1]
    simp only [unwrapPx, Option.some_bind, id_eq]
    exact hset1
  · rw [hga2]
    rfl

/-- Symbolic execution of the allocating image⊗pixel scan on a 1×3
operand. -/
theorem img_op_px_3x1_some (M : OverflowMode) (F : ScalarFmt) (o : Op)
    (a r0 r1 r2 r3 : ImageBuffer) (p pa0 pa1 pa2 : List Nat)
    (hw1 : a.width = 1) (hh3 : a.height = 3)
    (hnew : ImageBuffer.new_with_size F a.width a.height = some r0)
    (hga0 : ImageBuffer.get_pixel M F a 0 0 = some (some pa0))
    (hset0 : ImageBuffer.set_pixel M F r0 0 0 (op_px_px F o pa0 p) = some r1)
    (hga1 : ImageBuffer.get_pixel M F a 0 1 = some (some pa1))
    (hset1 : ImageBuffer.set_pixel M F r1 0 1 (op_px_px F o pa1 p) = some r2)
    (hga2 : ImageBuffer.get_pixel M F a 0 2 = some (some pa2))
    (hset2 : ImageBuffer.set_pixel M F r2 0 2 (op_px_px F o pa2 p) =
      some r3) :
    ImageBuffer.img_op_px M F o a p = some r3 := by
  unfold ImageBuffer.img_op_px
  rw [hnew, Option.some_bind]
  simp only [hw1, hh3]
  refine foldRange3_some _ _ r1 r2 r3 ?_ ?_ ?_ <;> simp only [foldRange_one]
  · rw [hga0]
    simp only [unwrapPx, Option.some_bind, id_eq]
    exact hset0
  · rw [hga1]
    simp only [unwrapPx, Option.some_bind, id_eq]
    exact hset1
  · rw [hga2]
    simp only [unwrapPx, Option.some_bind, id_eq]
    exact hset2

/-- Symbolic execution of the in-place image⊗=pixel scan on a 1×3 image:
each step reads the current (already mutated) state. -/
theorem img_opassign_px_3x1_some (M : OverflowMode) (F : ScalarFmt) (o : Op)
    (a s1 s2 s3 : ImageBuffer) (p pa0 pa1 pa2 : List Nat)
    (hw1 : a.width = 1) (hh3 : a.height = 3)
    (hga0 : ImageBuffer.get_pixel M F a 0 0 = some (some pa0))
    (hset0 : ImageBuffer.set_pixel M F a 0 0 (op_px_px F o pa0 p) = some s1)
    (hga1 : ImageBuffer.get_pixel M F s1 0 1 = some (some pa1))
    (hset1 : ImageBuffer.set_pixel M F s1 0 1 (op_px_px F o pa1 p) = some s2)
    (hga2 : ImageBuffer.get_pixel M F s2 0 2 = some (some pa2))
    (hset2 : ImageBuffer.set_pixel M F s2 0 2 (op_px_px F o pa2 p) =
      some s3) :
    ImageBuffer.img_opassign_px M F o a p = some s3 := by
  unfold ImageBuffer.img_opassign_px
  simp only [hw1, hh3]
  refine foldRange3_some _ _ s1 s2 s3 ?_ ?_ ?_ <;> simp only [foldRange_one]
  · rw [hga0]
    simp only [unwrapPx, Option.some_bind, id_eq]
    exact hset0
  · rw [hga1]
    simp only [unwrapPx, Option.some_bind, id_eq]
    exact hset1
  · rw [hga2]
    simp only [unwrapPx, Option.some_bind, id_eq]
    exact hset2

/-- On the oversized operand `bigA` the image⊗image scan fails fatally
under checked arithmetic: rows 0 and 1 are processed, then the row-offset
multiplication for row 2 overflows `u32` and panics. -/
theorem big_img_op_img_checked_none :
    ImageBuffer.img_op_img OverflowMode.checked u8Fmt Op.add bigA bigB =
      none :=
  img_op_img_3x1_none OverflowMode.checked u8Fmt Op.add bigA bigB
    ⟨1, 3, 1, [0, 0, 0]⟩ ⟨1, 3, 1, [0, 0, 0]⟩ ⟨1, 3, 1, [0, 0, 0]⟩
    [0] [0] [0] [0] rfl rfl rfl rfl
    (by decide)
    (bigA_get01 OverflowMode.checked 0 (by omega))
    (by decide)
    (by decide)
    (bigA_get01 OverflowMode.checked 1 (le_refl 1))
    (by decide)
    (by decide)
    bigA_get2_checked

/-- Storage of `bigA` after the wrapping-mode in-place scan has written
row 0 (at its true offset 0). -/
def bigW1 : List Nat := writeBytes (List.replicate bigN 0) 0 [1]

/-- ... after writing row 1 (at its true offset `2^31`). -/
def bigW2 : List Nat := writeBytes bigW1 (2 ^ 31) [1]

/-- ... after writing row 2, whose `u32` row offset `2 * 2^31` wraps to 0:
the write lands on row 0's bytes. -/
def bigW3 : List Nat := writeBytes bigW2 0 [2]

theorem bigW1_len : bigW1.length = bigN := by
  rw [bigW1, length_writeBytes _ _ _
    (by rw [List.length_replicate]; show 0 + 1 ≤ bigN; simp only [bigN]; omega),
    List.length_replicate]

theorem bigW2_len : bigW2.length = bigN := by
  rw [bigW2, length_writeBytes _ _ _
    (by rw [bigW1_len]; show 2 ^ 31 + 1 ≤ bigN; simp only [bigN]; omega),
    bigW1_len]

theorem bigW3_len : bigW3.length = bigN := by
  rw [bigW3, length_writeBytes _ _ _
    (by rw [bigW2_len]; show 0 + 1 ≤ bigN; simp only [bigN]; omega),
    bigW2_len]

theorem bigW1_read31 : readBytes bigW1 (2 ^ 31) 1 = [0] := by
  rw [bigW1, readBytes_writeBytes_disjoint _ _ _
    (by rw [List.length_replicate]; show 0 + 1 ≤ bigN; simp only [bigN]; omega)
    _ _ (Or.inr (by show 0 + 1 ≤ 2 ^ 31; omega)),
    readBytes_replicate _ _ _ _ (by simp only [bigN]; omega)]
  rfl

theorem bigW2_read0 : readBytes bigW2 0 1 = [1] := by
  rw [bigW2, readBytes_writeBytes_disjoint _ _ _
    (by rw [bigW1_len]; show 2 ^ 31 + 1 ≤ bigN; simp only [bigN]; omega)
    _ _ (Or.inl (by show 0 + 1 ≤ 2 ^ 31; omega))]
  have h := readBytes_writeBytes_same (List.replicate bigN 0) 0 [1]
    (by rw [List.length_replicate]; show 0 + 1 ≤ bigN; simp only [bigN]; omega)
  exact h

theorem bigW3_read0 : readBytes bigW3 0 1 = [2] := by
  have h := readBytes_writeBytes_same bigW2 0 [2]
    (by rw [bigW2_len]; show 0 + 1 ≤ bigN; simp only [bigN]; omega)
  exact h

theorem bigA_set0_wrapping :
    ImageBuffer.set_pixel OverflowMode.wrapping u8Fmt bigA 0 0 [1] =
      some ⟨1, 3, 2 ^ 31, bigW1⟩ := by
  simp only [bigA, ImageBuffer.set_pixel]
  rw [if_pos (Or.inl (by norm_num))]
  simp only [Gray.write_into_raw_buffer]
  rw [mulU32_of_lt OverflowMode.wrapping
    (show (0 : Nat) * 2 ^ 31 < 2 ^ 32 by norm_num)]
  simp only [Option.some_bind, List.length_replicate]
  rw [if_pos (show 0 * 2 ^ 31 + 0 * u8Fmt.ss + u8Fmt.ss ≤ bigN by
    simp only [u8Fmt, bigN]; omega)]
  rw [show (0 : Nat) * 2 ^ 31 + 0 * u8Fmt.ss = 0 by norm_num [u8Fmt]]
  rfl

theorem bigW1_get1_wrapping :
    ImageBuffer.get_pixel OverflowMode.wrapping u8Fmt ⟨1, 3, 2 ^ 31, bigW1⟩
      0 1 = some (some [0]) := by
  simp only [ImageBuffer.get_pixel]
  rw [if_pos (Or.inl (by norm_num))]
  simp only [Gray.load_from_raw_buffer]
  rw [mulU32_of_lt OverflowMode.wrapping
    (show (1 : Nat) * 2 ^ 31 < 2 ^ 32 by norm_num)]
  simp only [Option.some_bind, bigW1_len]
  rw [if_pos (show 1 * 2 ^ 31 + 0 * u8Fmt.ss + u8Fmt.ss ≤ bigN by
    simp only [u8Fmt, bigN]; omega)]
  rw [show (1 : Nat) * 2 ^ 31 + 0 * u8Fmt.ss = 2 ^ 31 by norm_num [u8Fmt]]
  rw [show u8Fmt.ss = 1 from rfl, bigW1_read31]
  rfl

theorem bigW1_set1_wrapping :
    ImageBuffer.set_pixel OverflowMode.wrapping u8Fmt ⟨1, 3, 2 ^ 31, bigW1⟩
      0 1 [1] = some ⟨1, 3, 2 ^ 31, bigW2⟩ := by
  simp only [ImageBuffer.set_pixel]
  rw [if_pos (Or.inl (by norm_num))]
  simp only [Gray.write_into_raw_buffer]
  rw [mulU32_of_lt OverflowMode.wrapping
    (show (1 : Nat) * 2 ^ 31 < 2 ^ 32 by norm_num)]
  simp only [Option.some_bind, bigW1_len]
  rw [if_pos (show 1 * 2 ^ 31 + 0 * u8Fmt.ss + u8Fmt.ss ≤ bigN by
    simp only [u8Fmt, bigN]; omega)]
  rw [show (1 : Nat) * 2 ^ 31 + 0 * u8Fmt.ss = 2 ^ 31 by norm_num [u8Fmt]]
  rfl

theorem bigW2_get2_wrapping :
    ImageBuffer.get_pixel OverflowMode.wrapping u8Fmt ⟨1, 3, 2 ^ 31, bigW2⟩
      0 2 = some (some [1]) := by
  simp only [ImageBuffer.get_pixel]
  rw [if_pos (Or.inl (by norm_num))]
  simp only [Gray.load_from_raw_buffer]
  rw [show mulU32 OverflowMode.wrapping 2 (2 ^ 31) = some 0 by decide]
  simp only [Option.some_bind, bigW2_len]
  rw [if_pos (show 0 + 0 * u8Fmt.ss + u8Fmt.ss ≤ bigN by
    simp only [u8Fmt, bigN]; omega)]
  rw [show 0 + 0 * u8Fmt.ss = 0 by norm_num [u8Fmt]]
  rw [show u8Fmt.ss = 1 from rfl, bigW2_read0]
  rfl

theorem bigW2_set2_wrapping :
    ImageBuffer.set_pixel OverflowMode.wrapping u8Fmt ⟨1, 3, 2 ^ 31, bigW2⟩
      0 2 [2] = some ⟨1, 3, 2 ^ 31, bigW3⟩ := by
  simp only [ImageBuffer.set_pixel]
  rw [if_pos (Or.inl (by norm_num))]
  simp only [Gray.write_into_raw_buffer]
  rw [show mulU32 OverflowMode.wrapping 2 (2 ^ 31) = some 0 by decide]
  simp only [Option.some_bind, bigW2_len]
  rw [if_pos (show 0 + 0 * u8Fmt.ss + u8Fmt.ss ≤ bigN by
    simp only [u8Fmt, bigN]; omega)]
  rw [show 0 + 0 * u8Fmt.ss = 0 by norm_num [u8Fmt]]
  rfl

theorem bigW3_get0_wrapping :
    ImageBuffer.get_pixel OverflowMode.wrapping u8Fmt ⟨1, 3, 2 ^ 31, bigW3⟩
      0 0 = some (some [2]) := by
  simp only [ImageBuffer.get_pixel]
  rw [if_pos (Or.inl (by norm_num))]
  simp only [Gray.load_from_raw_buffer]
  rw [mulU32_of_lt OverflowMode.wrapping
    (show (0 : Nat) * 2 ^ 31 < 2 ^ 32 by norm_num)]
  simp only [Option.some_bind, bigW3_len]
  rw [if_pos (show 0 * 2 ^ 31 + 0 * u8Fmt.ss + u8Fmt.ss ≤ bigN by
    simp only [u8Fmt, bigN]; omega)]
  rw [show (0 : Nat) * 2 ^ 31 + 0 * u8Fmt.ss = 0 by norm_num [u8Fmt]]
  rw [show u8Fmt.ss = 1 from rfl, bigW3_read0]
  rfl

/-- The wrapping-mode in-place `+= [1]` scan on `bigA`: row 2's write wraps
onto row 0, which had already been incremented, so row 0's byte ends at 2. -/
theorem big_assign_px_wrapping :
    ImageBuffer.img_opassign_px OverflowMode.wrapping u8Fmt Op.add bigA
      [1] = some ⟨1, 3, 2 ^ 31, bigW3⟩ :=
  img_opassign_px_3x1_some OverflowMode.wrapping u8Fmt Op.add bigA
    ⟨1, 3, 2 ^ 31, bigW1⟩ ⟨1, 3, 2 ^ 31, bigW2⟩ ⟨1, 3, 2 ^ 31, bigW3⟩
    [1] [0] [0] [1] rfl rfl
    (bigA_get01 OverflowMode.wrapping 0 (by omega))
    bigA_set0_wrapping
    bigW1_get1_wrapping
    bigW1_set1_wrapping
    bigW2_get2_wrapping
    bigW2_set2_wrapping

/-- The wrapping-mode allocating `+ [1]` on `bigA`: the result is packed
(pitch 1), its writes do not wrap, and its reads of the pristine operand all
return 0, so every result byte is 1. -/
theorem big_op_px_wrapping :
    ImageBuffer.img_op_px OverflowMode.wrapping u8Fmt Op.add bigA [1] =
      some ⟨1, 3, 1, [1, 1, 1]⟩ :=
  img_op_px_3x1_some OverflowMode.wrapping u8Fmt Op.add bigA
    ⟨1, 3, 1, [0, 0, 0]⟩ ⟨1, 3, 1, [1, 0, 0]⟩ ⟨1, 3, 1, [1, 1, 0]⟩
    ⟨1, 3, 1, [1, 1, 1]⟩ [1] [0] [0] [0] rfl rfl
    (by decide)
    (bigA_get01 OverflowMode.wrapping 0 (by omega))
    (by decide)
    (bigA_get01 OverflowMode.wrapping 1 (le_refl 1))
    (by decide)
    bigA_get2_wrapping
    (by decide)

/-- Claim C1: the claim states that `get_pixel(x, y)` returns `None` exactly
when `(x, y)` is out of bounds under `x < width AND y < height` and that
`set_pixel` fails fatally exactly there. The code instead tests
`x < width || y < height` (a logical OR), contradicting the `Image` trait's
own documentation ("If an location is accessed which is out of bound, the
result will be `None`"); the spec flags this OR as a defect and mandates the
AND predicate, so the claim is right and the code wrong. This theorem
records the code's behaviour (identical in both overflow modes — all
offsets here are tiny) at coordinates that are out of bounds under the AND
predicate: on the padded 1×2 image, `get_pixel(2, 0)` returns a value read
from row padding and `set_pixel(2, 0, ·)` succeeds silently; on a packed
2×2 image, `get_pixel(5, 0)` passes the bounds test and then fails fatally
inside the pixel decode instead of returning `None`. -/
theorem C1_bounds_predicate_code_eval :
    (¬(2 < imgPad.width ∧ 0 < imgPad.height)) ∧
    ImageBuffer.get_pixel OverflowMode.checked u8Fmt imgPad 2 0 =
      some (some [0]) ∧
    ImageBuffer.get_pixel OverflowMode.wrapping u8Fmt imgPad 2 0 =
      some (some [0]) ∧
    (ImageBuffer.set_pixel OverflowMode.checked u8Fmt imgPad 2 0
      [7]).isSome = true ∧
    (ImageBuffer.set_pixel OverflowMode.wrapping u8Fmt imgPad 2 0
      [7]).isSome = true ∧
    (¬(5 < imgA.width ∧ 0 < imgA.height)) ∧
    ImageBuffer.get_pixel OverflowMode.checked u8Fmt imgA 5 0 = none ∧
    ImageBuffer.get_pixel OverflowMode.wrapping u8Fmt imgA 5 0 = none := by
  decide

/-- Claim C3 (amended): compound-assignment equivalence, for every overflow
mode, provided the operands' storages are smaller than `2 ^ 32` bytes. For
each supported operand shape (image⊗image with equal dimensions,
image⊗pixel, image⊗scalar) and every operator, the in-place form succeeds
and holds, at every in-range location, the same pixel as the allocating
form's result. (The unamended claim fails on ≥ 4 GiB operands: see the
counterexample, where the wrapped row offset makes the in-place scan
double-apply the operand to row 0.) -/
theorem C3_compound_assign_equivalence (M : OverflowMode) (F : ScalarFmt)
    (o : Op) (a b : ImageBuffer) (p s : List Nat) (x y : Nat)
    (hWFa : WF F a) (hWFb : WF F b)
    (hsma : a.height * a.pitch < 2 ^ 32) (hsmb : b.height * b.pitch < 2 ^ 32)
    (hw : a.width = b.width) (hh : a.height = b.height)
    (hx : x < a.width) (hy : y < a.height) :
    ((ImageBuffer.img_opassign_img M F o a b).bind
        (fun r => r.get_pixel M F x y) =
      (ImageBuffer.img_op_img M F o a b).bind
        (fun r => r.get_pixel M F x y)) ∧
    (ImageBuffer.img_opassign_img M F o a b).isSome = true ∧
    ((ImageBuffer.img_opassign_px M F o a p).bind
        (fun r => r.get_pixel M F x y) =
      (ImageBuffer.img_op_px M F o a p).bind
        (fun r => r.get_pixel M F x y)) ∧
    (ImageBuffer.img_opassign_px M F o a p).isSome = true ∧
    ((ImageBuffer.img_opassign_sc M F o a s).bind
        (fun r => r.get_pixel M F x y) =
      (ImageBuffer.img_op_sc M F o a s).bind
        (fun r => r.get_pixel M F x y)) ∧
    (ImageBuffer.img_opassign_sc M F o a s).isSome = true := by
  obtain ⟨R1, hR1, _, _, _, _, hR1pix⟩ :=
    img_opassign_img_spec M F o a b hWFa hWFb hsma hsmb hw hh
  obtain ⟨R2, hR2, _, _, _, _, hR2pix⟩ :=
    img_op_img_spec M F o a b hWFa hWFb hsma hsmb hw hh
  obtain ⟨R3, hR3, _, _, _, _, hR3pix⟩ :=
    img_opassign_px_spec M F o a p hWFa hsma
  obtain ⟨R4, hR4, _, _, _, _, hR4pix⟩ := img_op_px_spec M F o a p hWFa hsma
  obtain ⟨R5, hR5, _, _, _, _, hR5pix⟩ :=
    img_opassign_sc_spec M F o a s hWFa hsma
  obtain ⟨R6, hR6, _, _, _, _, hR6pix⟩ := img_op_sc_spec M F o a s hWFa hsma
  rw [hR1, hR2, hR3, hR4, hR5, hR6]
  simp only [Option.some_bind, Option.isSome_some]
  refine ⟨?_, by trivial, ?_, by trivial, ?_, by trivial⟩
  · rw [hR1pix x y hx hy, hR2pix x y hx hy]
  · rw [hR3pix x y hx hy, hR4pix x y hx hy]
  · rw [hR5pix x y hx hy, hR6pix x y hx hy]

/-- Claim C3 witness: on the small 2×2 images, `+=` of an image, of a pixel
`[5]` and of a scalar `[2]` each agree at `(0, 1)` with the allocating
form, under checked arithmetic. -/
theorem C3_witness :
    WF u8Fmt imgA ∧ WF u8Fmt imgB ∧
      imgA.height * imgA.pitch < 2 ^ 32 ∧
      imgB.height * imgB.pitch < 2 ^ 32 ∧
      imgA.width = imgB.width ∧ imgA.height = imgB.height ∧
      0 < imgA.width ∧ 1 < imgA.height ∧
    ((ImageBuffer.img_opassign_img OverflowMode.checked u8Fmt Op.add imgA
        imgB).bind (fun r => r.get_pixel OverflowMode.checked u8Fmt 0 1) =
      (ImageBuffer.img_op_img OverflowMode.checked u8Fmt Op.add imgA
        imgB).bind (fun r => r.get_pixel OverflowMode.checked u8Fmt 0 1)) ∧
    (ImageBuffer.img_opassign_img OverflowMode.checked u8Fmt Op.add imgA
      imgB).isSome = true ∧
    ((ImageBuffer.img_opassign_px OverflowMode.checked u8Fmt Op.add imgA
        [5]).bind (fun r => r.get_pixel OverflowMode.checked u8Fmt 0 1) =
      (ImageBuffer.img_op_px OverflowMode.checked u8Fmt Op.add imgA
        [5]).bind (fun r => r.get_pixel OverflowMode.checked u8Fmt 0 1)) ∧
    (ImageBuffer.img_opassign_px OverflowMode.checked u8Fmt Op.add imgA
      [5]).isSome = true ∧
    ((ImageBuffer.img_opassign_sc OverflowMode.checked u8Fmt Op.add imgA
        [2]).bind (fun r => r.get_pixel OverflowMode.checked u8Fmt 0 1) =
      (ImageBuffer.img_op_sc OverflowMode.checked u8Fmt Op.add imgA
        [2]).bind (fun r => r.get_pixel OverflowMode.checked u8Fmt 0 1)) ∧
    (ImageBuffer.img_opassign_sc OverflowMode.checked u8Fmt Op.add imgA
      [2]).isSome = true :=
  ⟨by decide, by decide, by decide, by decide, rfl, rfl, by decide,
    by decide,
    (C3_compound_assign_equivalence OverflowMode.checked u8Fmt Op.add imgA
      imgB [5] [2] 0 1 (by decide) (by decide) (by decide) (by decide) rfl
      rfl (by decide) (by decide)).1,
    (C3_compound_assign_equivalence OverflowMode.checked u8Fmt Op.add imgA
      imgB [5] [2] 0 1 (by decide) (by decide) (by decide) (by decide) rfl
      rfl (by decide) (by decide)).2.1,
    (C3_compound_assign_equivalence OverflowMode.checked u8Fmt Op.add imgA
      imgB [5] [2] 0 1 (by decide) (by decide) (by decide) (by decide) rfl
      rfl (by decide) (by decide)).2.2.1,
    (C3_compound_assign_equivalence OverflowMode.checked u8Fmt Op.add imgA
      imgB [5] [2] 0 1 (by decide) (by decide) (by decide) (by decide) rfl
      rfl (by decide) (by decide)).2.2.2.1,
    (C3_compound_assign_equivalence OverflowMode.checked u8Fmt Op.add imgA
      imgB [5] [2] 0 1 (by decide) (by decide) (by decide) (by decide) rfl
      rfl (by decide) (by decide)).2.2.2.2.1,
    (C3_compound_assign_equivalence OverflowMode.checked u8Fmt Op.add imgA
      imgB [5] [2] 0 1 (by decide) (by decide) (by decide) (by decide) rfl
      rfl (by decide) (by decide)).2.2.2.2.2⟩

/-- Claim C3 counterexample: on the well-formed over-4 GiB image `bigA`
under wrapping (release) arithmetic, `a += [1]` and `a + [1]` disagree at
`(0, 0)`: the in-place scan's row-2 write wraps onto row 0, which had
already been incremented, leaving 2 there, while the allocating form leaves
1. (Under checked arithmetic the same scans panic instead.) -/
theorem C3_counterexample :
    WF u8Fmt bigA ∧ 0 < bigA.width ∧ 0 < bigA.height ∧
    (ImageBuffer.img_opassign_px OverflowMode.wrapping u8Fmt Op.add bigA
        [1]).bind (fun r => r.get_pixel OverflowMode.wrapping u8Fmt 0 0) =
      some (some [2]) ∧
    (ImageBuffer.img_op_px OverflowMode.wrapping u8Fmt Op.add bigA
        [1]).bind (fun r => r.get_pixel OverflowMode.wrapping u8Fmt 0 0) =
      some (some [1]) ∧
    (some (some [2]) : Option (Option (List Nat))) ≠ some (some [1]) := by
  refine ⟨bigA_WF, by norm_num [bigA], by norm_num [bigA], ?_, ?_,
    by decide⟩
  · rw [big_assign_px_wrapping, Option.some_bind]
    exact bigW3_get0_wrapping
  · rw [big_op_px_wrapping, Option.some_bind]
    decide

/-- Claim C4 (amended): for every overflow mode and every well-formed image
whose storage is smaller than `2 ^ 32` bytes, for every in-bounds
coordinate (under the AND predicate) and sample value of the format's
width, `set_pixel(x, y, v)` followed by `get_pixel(x, y)` yields `Some(v)`.
(The unamended claim fails for ≥ 4 GiB images under checked arithmetic,
where the `u32` row-offset multiplication panics: see the counterexample.) -/
theorem C4_set_get_roundtrip (M : OverflowMode) (F : ScalarFmt)
    (img : ImageBuffer) (x y : Nat) (v : List Nat) (hWF : WF F img)
    (hsm : img.height * img.pitch < 2 ^ 32)
    (hx : x < img.width) (hy : y < img.height) (hv : v.length = F.ss) :
    (img.set_pixel M F x y v).bind (fun img2 => img2.get_pixel M F x y) =
      some (some v) := by
  rw [set_pixel_in_range M F img hWF hsm hx hy v]
  simp only [Option.some_bind]
  have hoff : y * img.pitch + x * F.ss + F.ss ≤ img.raw_data.length :=
    off_add_ss_le F img hWF hx hy
  have hwb : y * img.pitch + x * F.ss + v.length ≤ img.raw_data.length := by
    rw [hv]; exact hoff
  have hlen : (writeBytes img.raw_data (y * img.pitch + x * F.ss) v).length =
      img.raw_data.length := length_writeBytes _ _ _ hwb
  have hWF2 : WF F { img with
      raw_data := writeBytes img.raw_data (y * img.pitch + x * F.ss) v } := by
    obtain ⟨h1, h2, h3⟩ := hWF
    exact ⟨h1, h2, by simp only [hlen]; exact h3⟩
  rw [get_pixel_in_range M F _ hWF2 hsm hx hy]
  have := readBytes_writeBytes_same img.raw_data (y * img.pitch + x * F.ss) v
    hwb
  rw [hv] at this
  rw [pixelAt]
  simp only
  rw [this]

/-- Claim C4 witness: on the 2×2 image, writing `[7]` at `(1, 0)` and
reading it back returns `Some [7]` (checked arithmetic; the image is far
below 4 GiB). -/
theorem C4_witness :
    WF u8Fmt imgA ∧ imgA.height * imgA.pitch < 2 ^ 32 ∧
      1 < imgA.width ∧ 0 < imgA.height ∧
      ([7] : List Nat).length = u8Fmt.ss ∧
    (imgA.set_pixel OverflowMode.checked u8Fmt 1 0 [7]).bind
        (fun img2 => img2.get_pixel OverflowMode.checked u8Fmt 1 0) =
      some (some [7]) :=
  ⟨by decide, by decide, by decide, by decide, by decide,
    C4_set_get_roundtrip OverflowMode.checked u8Fmt imgA 1 0 [7] (by decide)
      (by decide) (by decide) (by decide) (by decide)⟩

/-- Claim C4 counterexample: on the well-formed over-4 GiB image `bigA`,
the in-bounds coordinate `(0, 2)` has `u32` row offset `2 * 2^31 = 2^32`,
which overflows: under checked arithmetic `set_pixel` panics, so
`set_pixel(0,2,[7]); get_pixel(0,2)` does not yield `Some [7]`. -/
theorem C4_counterexample :
    WF u8Fmt bigA ∧ 0 < bigA.width ∧ 2 < bigA.height ∧
      ([7] : List Nat).length = u8Fmt.ss ∧
    (bigA.set_pixel OverflowMode.checked u8Fmt 0 2 [7]).bind
        (fun img2 => img2.get_pixel OverflowMode.checked u8Fmt 0 2) =
      none ∧
    (bigA.set_pixel OverflowMode.checked u8Fmt 0 2 [7]).bind
        (fun img2 => img2.get_pixel OverflowMode.checked u8Fmt 0 2) ≠
      some (some [7]) := by
  have hset : ImageBuffer.set_pixel OverflowMode.checked u8Fmt bigA 0 2
      [7] = none := by
    simp only [bigA, ImageBuffer.set_pixel]
    rw [if_pos (Or.inl (by norm_num))]
    simp only [Gray.write_into_raw_buffer, mulU32]
    rw [if_neg (by norm_num)]
    rfl
  refine ⟨bigA_WF, by norm_num [bigA], by norm_num [bigA], by decide,
    ?_, ?_⟩
  · rw [hset]
    rfl
  · rw [hset]
    intro hcontra
    exact Option.noConfusion hcontra

/-- Claim C5: loading a byte buffer of the correct length and then writing
into a second buffer of that length reproduces the first buffer byte for
byte. (These operations do no offset arithmetic, so no overflow mode is
involved.) -/
theorem C5_buffer_roundtrip (F : ScalarFmt) (img : ImageBuffer)
    (b b2 : List Nat) (n : Nat)
    (hsz : img.get_size_in_bytes F = some n)
    (hb : b.length = n) (hb2 : b2.length = n) :
    (img.load_from_raw_buffer F b).bind
        (fun img2 => img2.write_into_raw_buffer F b2) = some b := by
  rw [ImageBuffer.load_from_raw_buffer, hsz]
  simp only [Option.some_bind]
  rw [if_pos hb.symm]
  simp only [Option.some_bind]
  have hsz2 : ImageBuffer.get_size_in_bytes F { img with raw_data := b } =
      some n := hsz
  rw [ImageBuffer.write_into_raw_buffer, hsz2]
  simp only [Option.some_bind]
  rw [if_pos hb2.symm]

/-- Claim C5 witness: loading `[4,5,6,7]` into the 2×2 image and storing
into a zeroed 4-byte buffer returns `[4,5,6,7]`. -/
theorem C5_witness :
    imgA.get_size_in_bytes u8Fmt = some 4 ∧
      ([4, 5, 6, 7] : List Nat).length = 4 ∧
      (List.replicate 4 0 : List Nat).length = 4 ∧
    (imgA.load_from_raw_buffer u8Fmt [4, 5, 6, 7]).bind
        (fun img2 => img2.write_into_raw_buffer u8Fmt (List.replicate 4 0)) =
      some [4, 5, 6, 7] :=
  ⟨by decide, by decide, by decide,
    C5_buffer_roundtrip u8Fmt imgA [4, 5, 6, 7] (List.replicate 4 0) 4
      (by decide) (by decide) (by decide)⟩

/-- Claim C6: `calc_size_in_bytes` is `some (height * pitch)` exactly when
the pitch is at least the minimum pitch and `none` exactly when it is
smaller, and at the minimum pitch itself the size is
`minimum_pitch * height`. (Pure `usize` arithmetic in the source — no
overflow mode involved.) -/
theorem C6_size_formulas (F : ScalarFmt) (w h pitch : Nat) :
    (Gray.calc_size_in_bytes F w h pitch = some (h * pitch) ↔
      Gray.calc_minimum_pitch F w h ≤ pitch) ∧
    (Gray.calc_size_in_bytes F w h pitch = none ↔
      pitch < Gray.calc_minimum_pitch F w h) ∧
    Gray.calc_size_in_bytes F w h (Gray.calc_minimum_pitch F w h) =
      some (Gray.calc_minimum_pitch F w h * h) := by
  refine ⟨⟨fun hs => ?_, fun hle => ?_⟩, ⟨fun hs => ?_, fun hlt => ?_⟩, ?_⟩
  · by_contra hnot
    rw [Gray.calc_size_in_bytes, if_neg hnot] at hs
    exact Option.noConfusion hs
  · rw [Gray.calc_size_in_bytes, if_pos hle]
  · by_contra hnot
    rw [Gray.calc_size_in_bytes, if_pos (by omega)] at hs
    exact Option.noConfusion hs
  · rw [Gray.calc_size_in_bytes, if_neg (by omega)]
  · rw [Gray.calc_size_in_bytes, if_pos (le_refl _), Nat.mul_comm]

/-- Claim C7: the storage invariant `len(storage) == size_in_bytes(width,
height, pitch)`. Construction fails fatally exactly on invalid geometry and
otherwise allocates a zero-filled buffer of exactly the validated size
(which satisfies the invariant); `set_pixel` preserves the invariant in
every overflow mode (an accepted write — even one whose wrapped offset
lands in the wrong row — replaces bytes in place and keeps the length);
and `load_from_raw_buffer` succeeds exactly when the supplied buffer's
length equals `get_size_in_bytes()`, replacing the storage wholesale with a
buffer of that same length. -/
theorem C7_storage_invariant (F : ScalarFmt) :
    (∀ w h p, Gray.calc_size_in_bytes F w h p = none →
      ImageBuffer.new_with_size_and_pitch F w h p = none) ∧
    (∀ w h p n, Gray.calc_size_in_bytes F w h p = some n →
      ImageBuffer.new_with_size_and_pitch F w h p =
        some ⟨w, h, p, List.replicate n 0⟩ ∧
      ImageBuffer.get_size_in_bytes F ⟨w, h, p, List.replicate n 0⟩ =
        some (List.replicate (α := Nat) n 0).length) ∧
    (∀ M img x y v img2, v.length = F.ss →
      ImageBuffer.get_size_in_bytes F img = some img.raw_data.length →
      ImageBuffer.set_pixel M F img x y v = some img2 →
      ImageBuffer.get_size_in_bytes F img2 = some img2.raw_data.length) ∧
    (∀ img buffer,
      ((ImageBuffer.load_from_raw_buffer F img buffer).isSome = true ↔
        ImageBuffer.get_size_in_bytes F img = some buffer.length) ∧
      (∀ img2, ImageBuffer.load_from_raw_buffer F img buffer = some img2 →
        img2.raw_data = buffer ∧
        ImageBuffer.get_size_in_bytes F img2 =
          some img2.raw_data.length)) := by
  refine ⟨?_, ?_, ?_, ?_⟩
  · intro w h p hnone
    rw [ImageBuffer.new_with_size_and_pitch, hnone]
    rfl
  · intro w h p n hsome
    refine ⟨?_, ?_⟩
    · rw [ImageBuffer.new_with_size_and_pitch, hsome]
      rfl
    · show Gray.calc_size_in_bytes F w h p = _
      rw [hsome, List.length_replicate]
  · intro M img x y v img2 hv hinv hset
    simp only [ImageBuffer.set_pixel, Gray.write_into_raw_buffer] at hset
    by_cases hc1 : x < img.width ∨ y < img.height
    · rw [if_pos hc1] at hset
      cases hrow : mulU32 M y img.pitch with
      | none =>
        rw [hrow] at hset
        simp only [Option.none_bind, Option.map_none'] at hset
        exact Option.noConfusion hset
      | some row =>
        rw [hrow] at hset
        simp only [Option.some_bind] at hset
        by_cases hc2 : row + x * F.ss + F.ss ≤ img.raw_data.length
        · rw [if_pos hc2] at hset
          simp only [Option.map_some'] at hset
          have h2 := Option.some.inj hset
          subst h2
          have hlen : (writeBytes img.raw_data (row + x * F.ss) v).length =
              img.raw_data.length :=
            length_writeBytes _ _ _ (by rw [hv]; omega)
          show Gray.calc_size_in_bytes F img.width img.height img.pitch = _
          simp only [hlen]
          exact hinv
        · rw [if_neg hc2] at hset
          simp only [Option.map_none'] at hset
          exact Option.noConfusion hset
    · rw [if_neg hc1] at hset
      exact Option.noConfusion hset
  · intro img buffer
    cases hsz : img.get_size_in_bytes F with
    | none =>
      constructor
      · simp [ImageBuffer.load_from_raw_buffer, hsz]
      · intro img2 hld
        rw [ImageBuffer.load_from_raw_buffer, hsz] at hld
        exact Option.noConfusion hld
    | some n =>
      by_cases hn : n = buffer.length
      · subst hn
        constructor
        · simp [ImageBuffer.load_from_raw_buffer, hsz]
        · intro img2 hld
          rw [ImageBuffer.load_from_raw_buffer, hsz] at hld
          simp only [Option.some_bind, if_pos rfl] at hld
          have h2 := Option.some.inj hld
          subst h2
          refine ⟨rfl, ?_⟩
          show Gray.calc_size_in_bytes F img.width img.height img.pitch = _
          exact hsz
      · constructor
        · rw [ImageBuffer.load_from_raw_buffer, hsz]
          simp only [Option.some_bind, if_neg hn]
          constructor
          · intro hfalse
            exact absurd hfalse (by simp)
          · intro hsome
            exact absurd (Option.some.inj hsome) hn
        · intro img2 hld
          rw [ImageBuffer.load_from_raw_buffer, hsz] at hld
          simp only [Option.some_bind, if_neg hn] at hld
          exact Option.noConfusion hld

/-- Claim C8: `new_with_size` truncates the minimum pitch to `u32` before
validating it (an `as` cast, which wraps in every build profile). When the
minimum pitch does not fit in `u32` the truncated pitch fails validation
and construction fails fatally, even though the untruncated minimum pitch
itself would be a valid pitch; when it fits, construction succeeds and the
image's pitch is exactly the minimum pitch. -/
theorem C8_min_pitch_truncation (F : ScalarFmt) (w h : Nat) :
    (2 ^ 32 ≤ Gray.calc_minimum_pitch F w h →
      ImageBuffer.new_with_size F w h = none ∧
      Gray.calc_size_in_bytes F w h (Gray.calc_minimum_pitch F w h) =
        some (h * Gray.calc_minimum_pitch F w h)) ∧
    (Gray.calc_minimum_pitch F w h < 2 ^ 32 →
      ImageBuffer.new_with_size F w h =
        some ⟨w, h, Gray.calc_minimum_pitch F w h,
          List.replicate (h * Gray.calc_minimum_pitch F w h) 0⟩) := by
  constructor
  · intro hge
    have hmod : Gray.calc_minimum_pitch F w h % 2 ^ 32 < 2 ^ 32 :=
      Nat.mod_lt _ (by norm_num)
    constructor
    · rw [ImageBuffer.new_with_size, ImageBuffer.new_with_size_and_pitch,
        Gray.calc_size_in_bytes, if_neg (by omega)]
      rfl
    · rw [Gray.calc_size_in_bytes, if_pos (le_refl _)]
  · exact new_with_size_eq F w h

/-- Claim C9 (amended): every allocating broadcasting operator (all five
operand shapes) returns an image whose pitch is the pixel type's minimum
pitch for the result's dimensions, whatever the pitch of the image
operand(s) — for every overflow mode, provided each operand's storage is
smaller than `2 ^ 32` bytes. (Without that bound the scan panics mid-way
under checked arithmetic and returns nothing: see the counterexample.) -/
theorem C9_result_pitch_is_minimum (M : OverflowMode) (F : ScalarFmt)
    (o : Op) (a b : ImageBuffer) (p s : List Nat)
    (hWFa : WF F a) (hWFb : WF F b)
    (hsma : a.height * a.pitch < 2 ^ 32) (hsmb : b.height * b.pitch < 2 ^ 32)
    (hw : a.width = b.width) (hh : a.height = b.height) :
    ((ImageBuffer.img_op_img M F o a b).map ImageBuffer.pitch =
      some (Gray.calc_minimum_pitch F a.width a.height)) ∧
    ((ImageBuffer.img_op_px M F o a p).map ImageBuffer.pitch =
      some (Gray.calc_minimum_pitch F a.width a.height)) ∧
    ((ImageBuffer.px_op_img M F o p b).map ImageBuffer.pitch =
      some (Gray.calc_minimum_pitch F b.width b.height)) ∧
    ((ImageBuffer.img_op_sc M F o a s).map ImageBuffer.pitch =
      some (Gray.calc_minimum_pitch F a.width a.height)) ∧
    ((ImageBuffer.sc_op_img M F o s b).map ImageBuffer.pitch =
      some (Gray.calc_minimum_pitch F b.width b.height)) := by
  obtain ⟨R1, hR1, _, _, hR1p, _, _⟩ :=
    img_op_img_spec M F o a b hWFa hWFb hsma hsmb hw hh
  obtain ⟨R2, hR2, _, _, hR2p, _, _⟩ := img_op_px_spec M F o a p hWFa hsma
  obtain ⟨R3, hR3, _, _, hR3p, _, _⟩ := px_op_img_spec M F o p b hWFb hsmb
  obtain ⟨R4, hR4, _, _, hR4p, _, _⟩ := img_op_sc_spec M F o a s hWFa hsma
  obtain ⟨R5, hR5, _, _, hR5p, _, _⟩ := sc_op_img_spec M F o s b hWFb hsmb
  rw [hR1, hR2, hR3, hR4, hR5]
  simp only [Option.map_some']
  exact ⟨by rw [hR1p], by rw [hR2p], by rw [hR3p], by rw [hR4p],
    by rw [hR5p]⟩

/-- Claim C9 witness: with a padded 1×2 left operand (pitch 4) and a packed
1×2 right operand (pitch 1), all five allocating operators produce pitch 1,
the minimum pitch — not the operand's padded pitch 4. -/
theorem C9_witness :
    WF u8Fmt imgPad ∧ WF u8Fmt imgPacked ∧
      imgPad.height * imgPad.pitch < 2 ^ 32 ∧
      imgPacked.height * imgPacked.pitch < 2 ^ 32 ∧
      imgPad.width = imgPacked.width ∧ imgPad.height = imgPacked.height ∧
    ((ImageBuffer.img_op_img OverflowMode.checked u8Fmt Op.add imgPad
        imgPacked).map ImageBuffer.pitch =
      some (Gray.calc_minimum_pitch u8Fmt imgPad.width imgPad.height)) ∧
    ((ImageBuffer.img_op_px OverflowMode.checked u8Fmt Op.add imgPad
        [1]).map ImageBuffer.pitch =
      some (Gray.calc_minimum_pitch u8Fmt imgPad.width imgPad.height)) ∧
    ((ImageBuffer.px_op_img OverflowMode.checked u8Fmt Op.add [1]
        imgPacked).map ImageBuffer.pitch =
      some (Gray.calc_minimum_pitch u8Fmt imgPacked.width
        imgPacked.height)) ∧
    ((ImageBuffer.img_op_sc OverflowMode.checked u8Fmt Op.add imgPad
        [2]).map ImageBuffer.pitch =
      some (Gray.calc_minimum_pitch u8Fmt imgPad.width imgPad.height)) ∧
    ((ImageBuffer.sc_op_img OverflowMode.checked u8Fmt Op.add [2]
        imgPacked).map ImageBuffer.pitch =
      some (Gray.calc_minimum_pitch u8Fmt imgPacked.width
        imgPacked.height)) ∧
    Gray.calc_minimum_pitch u8Fmt imgPad.width imgPad.height = 1 ∧
    imgPad.pitch = 4 :=
  ⟨by decide, by decide, by decide, by decide, rfl, rfl,
    (C9_result_pitch_is_minimum OverflowMode.checked u8Fmt Op.add imgPad
      imgPacked [1] [2] (by decide) (by decide) (by decide) (by decide) rfl
      rfl).1,
    (C9_result_pitch_is_minimum OverflowMode.checked u8Fmt Op.add imgPad
      imgPacked [1] [2] (by decide) (by decide) (by decide) (by decide) rfl
      rfl).2.1,
    (C9_result_pitch_is_minimum OverflowMode.checked u8Fmt Op.add imgPad
      imgPacked [1] [2] (by decide) (by decide) (by decide) (by decide) rfl
      rfl).2.2.1,
    (C9_result_pitch_is_minimum OverflowMode.checked u8Fmt Op.add imgPad
      imgPacked [1] [2] (by decide) (by decide) (by decide) (by decide) rfl
      rfl).2.2.2.1,
    (C9_result_pitch_is_minimum OverflowMode.checked u8Fmt Op.add imgPad
      imgPacked [1] [2] (by decide) (by decide) (by decide) (by decide) rfl
      rfl).2.2.2.2,
    by decide, by decide⟩

/-- Claim C9 counterexample: on the well-formed over-4 GiB operand pair
`bigA`, `bigB` under checked arithmetic the image⊗image operator panics
mid-scan (row 2's `u32` offset multiplication overflows), so it returns no
image at all — in particular none whose pitch is the minimum pitch. -/
theorem C9_counterexample :
    WF u8Fmt bigA ∧ WF u8Fmt bigB ∧ bigA.width = bigB.width ∧
      bigA.height = bigB.height ∧
    (ImageBuffer.img_op_img OverflowMode.checked u8Fmt Op.add bigA
        bigB).map ImageBuffer.pitch = none ∧
    (ImageBuffer.img_op_img OverflowMode.checked u8Fmt Op.add bigA
        bigB).map ImageBuffer.pitch ≠
      some (Gray.calc_minimum_pitch u8Fmt bigA.width bigA.height) := by
  refine ⟨bigA_WF, by decide, rfl, rfl, ?_, ?_⟩
  · rw [big_img_op_img_checked_none]
    rfl
  · rw [big_img_op_img_checked_none]
    intro hcontra
    exact Option.noConfusion hcontra

/-- Claim C10 (amended): whenever `set_pixel(x, y, v)` is accepted (in any
overflow mode), it changes only the `ss` storage bytes at the offset the
code actually computes, `(y * pitch mod 2^32) + x * ss` (which afterwards
hold `v`), leaving every other storage byte and the width, height and pitch
fields unchanged. Under checked arithmetic an accepted write implies
`y * pitch < 2^32`, so the wrapped offset is the true offset
`y*pitch + x*ss`; under wrapping arithmetic the claim's unreduced offset is
wrong — an accepted out-of-range `y` can make the write land at the wrapped
offset instead (see the counterexample). -/
theorem C10_set_pixel_frame (M : OverflowMode) (F : ScalarFmt)
    (img : ImageBuffer) (x y : Nat) (v : List Nat) (img2 : ImageBuffer)
    (hv : v.length = F.ss)
    (hset : ImageBuffer.set_pixel M F img x y v = some img2) :
    img2.width = img.width ∧ img2.height = img.height ∧
    img2.pitch = img.pitch ∧
    img2.raw_data.length = img.raw_data.length ∧
    readBytes img2.raw_data (y * img.pitch % 2 ^ 32 + x * F.ss) F.ss = v ∧
    (∀ i, i < y * img.pitch % 2 ^ 32 + x * F.ss ∨
        y * img.pitch % 2 ^ 32 + x * F.ss + F.ss ≤ i →
      img2.raw_data[i]? = img.raw_data[i]?) := by
  simp only [ImageBuffer.set_pixel, Gray.write_into_raw_buffer] at hset
  by_cases hc1 : x < img.width ∨ y < img.height
  · rw [if_pos hc1] at hset
    cases hrow : mulU32 M y img.pitch with
    | none =>
      rw [hrow] at hset
      simp only [Option.none_bind, Option.map_none'] at hset
      exact Option.noConfusion hset
    | some row =>
      have hrowmod : row = y * img.pitch % 2 ^ 32 := mulU32_eq_mod M hrow
      rw [hrow] at hset
      simp only [Option.some_bind] at hset
      by_cases hc2 : row + x * F.ss + F.ss ≤ img.raw_data.length
      · rw [if_pos hc2] at hset
        simp only [Option.map_some'] at hset
        have h2 := Option.some.inj hset
        subst h2
        subst hrowmod
        have hwb : y * img.pitch % 2 ^ 32 + x * F.ss + v.length ≤
            img.raw_data.length := by rw [hv]; omega
        refine ⟨rfl, rfl, rfl, length_writeBytes _ _ _ hwb, ?_, ?_⟩
        · have h3 := readBytes_writeBytes_same img.raw_data
            (y * img.pitch % 2 ^ 32 + x * F.ss) v hwb
          rw [hv] at h3
          exact h3
        · intro i hi
          show (writeBytes img.raw_data
            (y * img.pitch % 2 ^ 32 + x * F.ss) v)[i]? = _
          rw [getElem?_writeBytes img.raw_data
            (y * img.pitch % 2 ^ 32 + x * F.ss) v hwb]
          rcases hi with hi | hi
          · rw [if_pos hi]
          · rw [if_neg (by omega), if_neg (by rw [hv]; omega)]
      · rw [if_neg hc2] at hset
        simp only [Option.map_none'] at hset
        exact Option.noConfusion hset
  · rw [if_neg hc1] at hset
    exact Option.noConfusion hset

/-- Claim C10 witness: on the padded 1×2 image, `set_pixel(0, 1, [9])`
writes exactly storage byte 4 (`(1*4 mod 2^32) + 0*1`), keeps the other
seven bytes and the geometry, and the written sample reads back as `[9]`. -/
theorem C10_witness :
    ([9] : List Nat).length = u8Fmt.ss ∧
    ImageBuffer.set_pixel OverflowMode.checked u8Fmt imgPad 0 1 [9] =
      some ⟨1, 2, 4, [0, 0, 0, 0, 9, 0, 0, 0]⟩ ∧
    ((⟨1, 2, 4, [0, 0, 0, 0, 9, 0, 0, 0]⟩ : ImageBuffer).width =
        imgPad.width ∧
      (⟨1, 2, 4, [0, 0, 0, 0, 9, 0, 0, 0]⟩ : ImageBuffer).height =
        imgPad.height ∧
      (⟨1, 2, 4, [0, 0, 0, 0, 9, 0, 0, 0]⟩ : ImageBuffer).pitch =
        imgPad.pitch ∧
      (⟨1, 2, 4, [0, 0, 0, 0, 9, 0, 0, 0]⟩ : ImageBuffer).raw_data.length =
        imgPad.raw_data.length ∧
      readBytes (⟨1, 2, 4, [0, 0, 0, 0, 9, 0, 0, 0]⟩ :
          ImageBuffer).raw_data (1 * imgPad.pitch % 2 ^ 32 + 0 * u8Fmt.ss)
        u8Fmt.ss = [9] ∧
      (∀ i, i < 1 * imgPad.pitch % 2 ^ 32 + 0 * u8Fmt.ss ∨
          1 * imgPad.pitch % 2 ^ 32 + 0 * u8Fmt.ss + u8Fmt.ss ≤ i →
        (⟨1, 2, 4, [0, 0, 0, 0, 9, 0, 0, 0]⟩ :
          ImageBuffer).raw_data[i]? = imgPad.raw_data[i]?)) :=
  ⟨by decide, by decide,
    C10_set_pixel_frame OverflowMode.checked u8Fmt imgPad 0 1 [9]
      ⟨1, 2, 4, [0, 0, 0, 0, 9, 0, 0, 0]⟩ (by decide) (by decide)⟩

/-- Claim C10 counterexample: under wrapping (release) arithmetic, the
well-formed 1×1 pitch-2 image accepts `set_pixel(0, 2^31, [7])` — the OR
bounds test passes on `x` — and the `u32` row offset `2^31 * 2 = 2^32`
wraps to 0, so the write changes storage byte 0. Byte 0 is far below the
claimed offset `y*pitch + x*ss = 2^32`, so the original frame claim (only
bytes at the unreduced offset change) is violated. -/
theorem C10_counterexample :
    WF u8Fmt ⟨1, 1, 2, [0, 0]⟩ ∧
    ([7] : List Nat).length = u8Fmt.ss ∧
    ImageBuffer.set_pixel OverflowMode.wrapping u8Fmt ⟨1, 1, 2, [0, 0]⟩ 0
      (2 ^ 31) [7] = some ⟨1, 1, 2, [7, 0]⟩ ∧
    (0 : Nat) < 2 ^ 31 * 2 + 0 * u8Fmt.ss ∧
    (⟨1, 1, 2, [7, 0]⟩ : ImageBuffer).raw_data[0]? ≠
      (⟨1, 1, 2, [0, 0]⟩ : ImageBuffer).raw_data[0]? := by
  decide

end Img
